import Mathlib

/-!
# Verification of the `pure-ui-actions` (jetix) reactive update engine

This development is a shallow embedding of the engine in `src/jetix.ts`:
the component registry, the memoized action/task thunk factories, the
continuation ("next") executor, the render-batching scheduler and the
deep-freeze immutability guard.

Modelling conventions, mirrored from the TypeScript source:

* JavaScript object *references* are modelled as `Nat` tokens.  The engine
  compares state and props by reference (`!==`), which becomes decidable
  (in)equality of these tokens.  `undefined` becomes `Option.none`.
* Payload data (`data` arguments serialized with `JSON.stringify`) is
  modelled by the inductive type `Json` together with a structural
  `jsonStringify`.
* Handlers, task definitions and view functions are user code; they are
  kept as Lean functions inside a fixed `Program` (defunctionalized
  component definitions).  Continuations returned by handlers are the
  thunk *descriptions* `(componentId, name, payload)`; invoking a thunk
  from `runNext` with the private `internalKey` is modelled directly as a
  call of the corresponding dispatch function, matching
  `next(internalKey)` in the source.
* The snabbdom `patch` collaborator is out of scope in the spec; its one
  engine-relevant behaviour (firing the `destroy` hook of every component
  vnode that is removed from the tree, synchronously during `patch`) is
  modelled by `doPatch` below.
* A promise-returning `perform` is recorded as a pending task; settling
  the promise later (`settleTask`) models the `.then`/`.catch`
  continuation installed by `createTaskThunk`/`performTask`.  A `.then`
  on an already-settled value is modelled as an immediate continuation.
* Exceptions thrown by the engine (`throw Error(...)` in the source)
  are `Except.error` values of type `EngErr`.
* The mutually recursive engine functions are defined fuel-indexed
  (`mkFns`): level `fuel + 1` calls only level `fuel`, so all
  definitions are structurally recursive and fully executable.
-/

namespace Jetix

/-- JSON values, the payloads that `JSON.stringify` serializes in
`createCacheKey`.  `Option Json` models an optional `data` argument:
`none` is JavaScript `undefined`, `some .jnull` is JavaScript `null`. -/
inductive Json where
  | jnull : Json
  | jbool : Bool → Json
  | jnum : Int → Json
  | jstr : String → Json
  | jarr : List Json → Json
  | jobj : List (String × Json) → Json
deriving Repr

/-- String escaping used by `JSON.stringify` for string values
(backslash, quote and newline; other characters kept verbatim). -/
def jsonEscape (s : String) : String :=
  String.join (s.toList.map fun c =>
    if c = '\\' then "\\\\"
    else if c = '"' then "\\\""
    else if c = '\n' then "\\n"
    else String.singleton c)

mutual

/-- Model of `JSON.stringify` on `Json` values. -/
def jsonStringify : Json → String
  | .jnull => "null"
  | .jbool true => "true"
  | .jbool false => "false"
  | .jnum n => toString n
  | .jstr s => "\"" ++ jsonEscape s ++ "\""
  | .jarr xs => "[" ++ jsonStringifyList xs ++ "]"
  | .jobj fs => "\x7b" ++ jsonStringifyFields fs ++ "\x7d"

/-- Comma-separated serialization of array elements. -/
def jsonStringifyList : List Json → String
  | [] => ""
  | [x] => jsonStringify x
  | x :: xs => jsonStringify x ++ "," ++ jsonStringifyList xs

/-- Comma-separated serialization of object fields. -/
def jsonStringifyFields : List (String × Json) → String
  | [] => ""
  | [(k, v)] => "\"" ++ jsonEscape k ++ "\":" ++ jsonStringify v
  | (k, v) :: fs =>
      "\"" ++ jsonEscape k ++ "\":" ++ jsonStringify v ++ "," ++ jsonStringifyFields fs

end

/-- `createCacheKey(id, name, data)` from jetix.ts: the serialized key is
empty when `data === null || data === undefined`, otherwise
`JSON.stringify(data)`; the key is `id + ":" + name + ":" + dataKey`. -/
def createCacheKey (id name : String) (data : Option Json) : String :=
  let dataKey :=
    match data with
    | none => ""
    | some .jnull => ""
    | some j => jsonStringify j
  id ++ ":" ++ name ++ ":" ++ dataKey

/-! ## Engine data model -/

/-- A memoized thunk description: what `createActionThunk` /
`createTaskThunk` close over — the component id, the action/task name and
the (optional) payload.  `Next` continuations reference thunks this way;
their object identity is tracked separately through the thunk caches. -/
inductive ThunkRefV where
  | action : String → String → Option Json → ThunkRefV
  | task : String → String → Option Json → ThunkRefV
deriving Repr

/-- A non-`undefined` `Next` continuation: a single thunk or an array of
thunks (the TypeScript type `ActionThunk | TaskThunk | (ActionThunk | TaskThunk)[]`).
`Option NextV` is the full `Next` type with `undefined`. -/
inductive NextV where
  | thunk : ThunkRefV → NextV
  | list : List ThunkRefV → NextV
deriving Repr

/-- The argument a thunk is invoked with: a recognized DOM event
(`isDomEvent` true), the engine's private `internalKey` token, a plain
payload object, or `undefined`. -/
inductive ThunkArg where
  | domEvent : ThunkArg
  | internalKey : ThunkArg
  | payloadObj : Json → ThunkArg
  | undef : ThunkArg
deriving Repr

/-- Rendered virtual node of a component instance: its id plus the
vnodes of the component instances rendered inside its view.  Every such
node carries the `destroy` hook installed by `setRenderRef`. -/
inductive VNodeT where
  | node : String → List VNodeT → VNodeT
deriving Repr

mutual

/-- The instance ids present in a rendered tree (these are exactly the
vnodes with a `destroy` hook attached by `setRenderRef`). -/
def collectIds : VNodeT → List String
  | .node i kids => i :: collectIdsList kids

/-- Ids of a list of rendered subtrees. -/
def collectIdsList : List VNodeT → List String
  | [] => []
  | v :: vs => collectIds v ++ collectIdsList vs

end

/-- The read-only context handed to handlers and views:
`{ props, state, rootState, event }`, with objects as reference tokens and
`event` as presence of a DOM event. -/
structure Ctx where
  props : Option Nat
  state : Option Nat
  rootState : Option Nat
  event : Bool
deriving Repr

/-- Result of an action handler: `{ state, next }`. -/
structure HandlerOut where
  state : Option Nat
  next : Option NextV

/-- Outcome of calling a task's `perform()`: a non-promise value,
a promise (settled later), or a synchronous throw. -/
inductive TaskOutcome where
  | value : Json → TaskOutcome
  | promise : TaskOutcome
  | throws : Json → TaskOutcome
deriving Repr

/-- A task definition `{ perform, success?, failure? }` as obtained from
`tasks[taskName](data)`. -/
structure TaskDef where
  perform : TaskOutcome
  success : Option (Json → Ctx → Option NextV)
  failure : Option (Json → Ctx → Option NextV)

/-- How a view passes props to a requested child component: no props
(`undefined`), a fixed object reference, or a freshly constructed object
literal (new reference every render). -/
inductive PropsSpec where
  | pnone : PropsSpec
  | pref : Nat → PropsSpec
  | pfresh : PropsSpec
deriving Repr, DecidableEq

/-- A child component render request made by a view: which component
definition, the id string passed (possibly `#`-prefixed) and the props. -/
structure ChildReq where
  comp : Nat
  cid : String
  props : PropsSpec

/-- A defunctionalized component configuration, the result of
`getConfig`.  Handlers receive their own instance id first (the closure
over `id` in the source's `action`/`task` helpers). -/
structure CompDef where
  stateInit : Option (Option Nat → Nat)
  init : Option NextV
  actions : List (String × (String → Option Json → Ctx → HandlerOut))
  tasks : List (String × (Option Json → TaskDef))
  view : String → Ctx → List ChildReq

/-- A fixed program: the component definitions referenced by index. -/
structure Program where
  defs : List CompDef

/-- A live component instance in the registry. -/
structure Instance where
  id : String
  compRef : Nat
  state : Option Nat
  props : Option Nat
  prevProps : Option Nat
  vnode : Option VNodeT
  isRoot : Bool
  inCurrentRender : Bool
deriving Repr

/-- A pending asynchronous task: the data captured by the closures in
`performTask` when `perform()` returned a promise. -/
structure Pending where
  iid : String
  compRef : Nat
  tname : String
  data : Option Json
  pstate : Option Nat
  pprops : Option Nat
deriving Repr

/-- Entries of the logging collaborator relevant to tasks
(`log.taskPerform`, `log.taskSuccess`, `log.taskFailure`). -/
inductive TaskLogE where
  | performed : String → Bool → TaskLogE
  | succeeded : String → String → TaskLogE
  | failed : String → String → Json → TaskLogE
deriving Repr

/-- The settlement of a pending task's promise. -/
inductive SettleRes where
  | resolved : Json → SettleRes
  | rejected : Json → SettleRes
deriving Repr

/-- Errors thrown synchronously by the engine (`throw Error(...)`),
plus fuel exhaustion of the fuel-indexed interpreter. -/
inductive EngErr where
  | outOfFuel : EngErr
  | componentNotFound : String → EngErr
  | manualInvocation : String → String → EngErr
  | duplicateId : String → EngErr
  | taskNotFound : String → String → EngErr
  | badProgram : EngErr
deriving Repr, DecidableEq

/-- The engine's module-level mutable state: the component registry, the
two thunk caches with a reference allocator, `rootState`, the
render-batching flags (`noRender`, `rootStateChanged`, `stateChanged`,
`renderRootId`) and observation logs (patch count, view invocations,
task log, pending promises).  `nextObjRef` allocates fresh object
references for views that build fresh props literals. -/
structure Engine where
  registry : List (String × Instance)
  actionCache : List (String × Nat)
  taskCache : List (String × Nat)
  nextThunkRef : Nat
  nextObjRef : Nat
  rootState : Option Nat
  noRender : Nat
  rootStateChanged : Bool
  stateChanged : Bool
  renderRootId : Option String
  patchCount : Nat
  viewLog : List String
  taskLog : List TaskLogE
  pending : List Pending
deriving Repr

/-- Association-list lookup used for the registry and the caches
(`Map.get`). -/
def alookup {α : Type} : List (String × α) → String → Option α
  | [], _ => none
  | (k, v) :: rest, key => if k = key then some v else alookup rest key

/-- Registry lookup `componentRegistry.get(id)`. -/
def Engine.getInst (s : Engine) (id : String) : Option Instance :=
  alookup s.registry id

/-- In-place update of a registry entry (mutation of the instance object
held by the registry). -/
def updAssoc {α : Type} (f : α → α) : List (String × α) → String → List (String × α)
  | [], _ => []
  | (k, v) :: rest, key =>
      if k = key then (k, f v) :: rest else (k, v) :: updAssoc f rest key

/-- `componentRegistry.set(id, instance)` for a fresh id (insertion). -/
def Engine.setInst (s : Engine) (id : String) (inst : Instance) : Engine :=
  { s with registry := s.registry ++ [(id, inst)] }

/-- Mutate the registry entry of `id` (if present). -/
def Engine.updInst (s : Engine) (id : String) (f : Instance → Instance) : Engine :=
  { s with registry := updAssoc f s.registry id }

/-- `componentRegistry.delete(id)`. -/
def Engine.delInst (s : Engine) (id : String) : Engine :=
  { s with registry := s.registry.filter (fun e => ¬ e.1 = id) }

/-! ## Thunk factories (memoization) -/

/-- `createActionThunk`: return the cached thunk for the cache key, or
allocate a fresh thunk object (a fresh reference) and cache it.  The
returned `Nat` is the identity of the thunk object. -/
def createActionThunkM (s : Engine) (componentId actionName : String)
    (data : Option Json) : Engine × Nat :=
  let cacheKey := createCacheKey componentId actionName data
  match alookup s.actionCache cacheKey with
  | some cached => (s, cached)
  | none =>
      ({ s with
          actionCache := s.actionCache ++ [(cacheKey, s.nextThunkRef)],
          nextThunkRef := s.nextThunkRef + 1 }, s.nextThunkRef)

/-- `createTaskThunk`: memoization identical to `createActionThunk`,
over the task thunk cache.  (Thunk references are drawn from the same
allocator: distinct JavaScript objects are distinct references.) -/
def createTaskThunkM (s : Engine) (componentId taskName : String)
    (data : Option Json) : Engine × Nat :=
  let cacheKey := createCacheKey componentId taskName data
  match alookup s.taskCache cacheKey with
  | some cached => (s, cached)
  | none =>
      ({ s with
          taskCache := s.taskCache ++ [(cacheKey, s.nextThunkRef)],
          nextThunkRef := s.nextThunkRef + 1 }, s.nextThunkRef)

/-- Well-formedness of the thunk caches: every cached reference was
allocated (below `nextThunkRef`) and distinct cache entries (across both
caches) hold distinct references — distinct JavaScript objects. -/
def CachesWF (s : Engine) : Prop :=
  (∀ e ∈ s.actionCache, e.2 < s.nextThunkRef) ∧
  (∀ e ∈ s.taskCache, e.2 < s.nextThunkRef) ∧
  (∀ e ∈ s.actionCache, ∀ e' ∈ s.actionCache, e.1 ≠ e'.1 → e.2 ≠ e'.2) ∧
  (∀ e ∈ s.taskCache, ∀ e' ∈ s.taskCache, e.1 ≠ e'.1 → e.2 ≠ e'.2)

/-! ## Teardown: the `destroy` hook and `patch` -/

/-- `charsLead p s` holds when the character list `p` is an initial
segment of `s` (the list-level core of `String.startsWith`). -/
def charsLead : List Char → List Char → Bool
  | [], _ => true
  | _ :: _, [] => false
  | a :: as, b :: bs => a == b && charsLead as bs

/-- `strLeads p s` models `s.startsWith(p)` on the underlying
character data. -/
def strLeads (p s : String) : Bool := charsLead p.data s.data

/-- The body of the `destroy` hook installed by `setRenderRef`: when the
instance exists, is not part of the current render pass and is not the
pass's render root, delete it from the registry and purge every cached
thunk whose key starts with `id + ":"`. -/
def destroyHook (s : Engine) (rid : String) : Engine :=
  match s.getInst rid with
  | some inst =>
      if ¬ inst.inCurrentRender ∧ s.renderRootId ≠ some rid then
        let s₁ := s.delInst rid
        { s₁ with
            actionCache := s₁.actionCache.filter (fun e => ¬ strLeads (rid ++ ":") e.1),
            taskCache := s₁.taskCache.filter (fun e => ¬ strLeads (rid ++ ":") e.1) }
      else s
  | none => s

/-- Modelled from the spec: the external virtual-tree collaborator's
`patch(old, new)` fires the `destroy` hook of every hooked (component)
vnode present in the old tree but absent from the new tree,
synchronously during the patch. -/
def doPatch (s : Engine) (prev next : VNodeT) : Engine :=
  let removed := (collectIds prev).filter (fun i => ¬ (collectIds next).contains i)
  removed.foldl destroyHook s

/-- Reset of the `inCurrentRender` flags of every registry entry
(`Array.from(componentRegistry.values()).forEach(...)`). -/
def clearRenderFlags (s : Engine) : Engine :=
  { s with registry := s.registry.map (fun e => (e.1, { e.2 with inCurrentRender := false })) }

/-! ## The engine's mutually recursive functions -/

/-- Result of `performTask`: an immediately available continuation
(non-promise value or synchronous throw), or a pending promise. -/
inductive TaskRes where
  | immediate : Option NextV → TaskRes
  | pendingRes : TaskRes

/-- The engine functions, gathered in one structure so that the fuel
level `fuel + 1` can be defined from level `fuel` (`mkFns`). -/
structure Fns where
  invokeAction : String → String → Option Json → ThunkArg → Engine → Except EngErr Engine
  invokeTask : String → String → Option Json → ThunkArg → Engine → Except EngErr Engine
  executeAction : String → String → Option Json → Bool → Engine → Except EngErr Engine
  performTask : String → String → Option Json → Engine → Except EngErr (Engine × TaskRes)
  runNext : String → Option NextV → Engine → Except EngErr Engine
  renderCI : String → Engine → Except EngErr (Engine × Option VNodeT)
  renderChild : Nat → String → Option Nat → Engine → Except EngErr (Engine × Option VNodeT)
  renderComponent : Nat → String → Option Nat → Engine → Except EngErr (Engine × Option VNodeT)
  settle : Pending → SettleRes → Engine → Except EngErr Engine

/-- `runNext` on a continuation that is a thunk invokes it with the
private `internalKey` (`next(internalKey)`). -/
def invokeThunkVia (p : Fns) : ThunkRefV → Engine → Except EngErr Engine
  | .action c n d, s => p.invokeAction c n d .internalKey s
  | .task c n d, s => p.invokeTask c n d .internalKey s

/-- `next.forEach((n) => runNext(instance, n))` on an array of thunks. -/
def runThunkList (iv : ThunkRefV → Engine → Except EngErr Engine) :
    List ThunkRefV → Engine → Except EngErr Engine
  | [], s => .ok s
  | t :: ts, s => do
      let s₁ ← iv t s
      runThunkList iv ts s₁

/-- Resolve the props a view passes to a child: a fresh object literal
allocates a new reference. -/
def resolveProps (s : Engine) : PropsSpec → Engine × Option Nat
  | .pnone => (s, none)
  | .pref n => (s, some n)
  | .pfresh => ({ s with nextObjRef := s.nextObjRef + 1 }, some s.nextObjRef)

/-- Render the child component requests made by a view, collecting the
child vnodes embedded in the parent's vnode. -/
def renderKids (rc : Nat → String → Option Nat → Engine → Except EngErr (Engine × Option VNodeT)) :
    List ChildReq → Engine → Except EngErr (Engine × List VNodeT)
  | [], s => .ok (s, [])
  | r :: rs, s => do
      let (s₁, pr) := resolveProps s r.props
      let (s₂, v) ← rc r.comp r.cid pr s₁
      let (s₃, vs) ← renderKids rc rs s₂
      .ok (s₃, match v with | some vn => vn :: vs | none => vs)

/-- `(idStr || "").replace(/^#/, "")`. -/
def stripHash (s : String) : String :=
  match s.data with
  | '#' :: rest => String.mk rest
  | _ => s

/-- Fuel level 0 of the engine functions. -/
def errFns : Fns where
  invokeAction := fun _ _ _ _ _ => .error .outOfFuel
  invokeTask := fun _ _ _ _ _ => .error .outOfFuel
  executeAction := fun _ _ _ _ _ => .error .outOfFuel
  performTask := fun _ _ _ _ => .error .outOfFuel
  runNext := fun _ _ _ => .error .outOfFuel
  renderCI := fun _ _ => .error .outOfFuel
  renderChild := fun _ _ _ _ => .error .outOfFuel
  renderComponent := fun _ _ _ _ => .error .outOfFuel
  settle := fun _ _ _ => .error .outOfFuel

/-- `createActionThunk`'s thunk body (lines 149-167): executes the
action when invoked with a DOM event or the private `internalKey`,
otherwise `log.manualError` throws. -/
def invokeActionF (p : Fns) (cid name : String) (data : Option Json)
    (arg : ThunkArg) (s : Engine) : Except EngErr Engine :=
  match arg with
  | .domEvent =>
      match s.getInst cid with
      | none => .error (.componentNotFound cid)
      | some _ => p.executeAction cid name data true s
  | .internalKey =>
      match s.getInst cid with
      | none => .error (.componentNotFound cid)
      | some _ => p.executeAction cid name data false s
  | _ => .error (.manualInvocation cid name)

/-- `createTaskThunk`'s thunk body (lines 188-201): on a DOM event or
the internal key, perform the task and chain
`result.then((next) => runNext(instance, next))`; otherwise
`log.manualError` throws. -/
def invokeTaskF (p : Fns) (cid tname : String) (data : Option Json)
    (arg : ThunkArg) (s : Engine) : Except EngErr Engine :=
  match arg with
  | .domEvent | .internalKey =>
      match s.getInst cid with
      | none => .error (.componentNotFound cid)
      | some _ => do
          let (s₁, res) ← p.performTask cid tname data s
          match res with
          | .immediate next => p.runNext cid next s₁
          | .pendingRes => .ok s₁
  | _ => .error (.manualInvocation cid tname)

/-- `executeAction` (lines 210-244): freeze the previous state, run the
handler, store the returned state, record whether the reference changed
(also in `rootStateChanged` for the root instance) and hand `next` to
`runNext`. -/
def executeActionF (P : Program) (p : Fns) (cid name : String)
    (data : Option Json) (event : Bool) (s : Engine) : Except EngErr Engine :=
  match s.getInst cid with
  | none => .ok s
  | some inst =>
    match P.defs.get? inst.compRef with
    | none => .error .badProgram
    | some cfg =>
      match alookup cfg.actions name with
      | none => .ok s
      | some h =>
          -- `deepFreeze(prevState)`: freezing leaves references
          -- unchanged (modelled separately below).
          let prevState := inst.state
          let out := h cid data
            { props := inst.props, state := prevState,
              rootState := s.rootState, event := event }
          let s₁ := s.updInst cid (fun i => { i with state := out.state })
          let s₂ := { s₁ with
            stateChanged := s₁.stateChanged || (out.state != prevState) }
          let s₃ :=
            if inst.isRoot then
              { s₂ with rootState := out.state,
                        rootStateChanged := (out.state != prevState) }
            else s₂
          p.runNext cid out.next s₃

/-- `performTask` (lines 246-289): build the task, call `perform()`;
a non-promise value is an immediate success (called synchronously), a
promise flushes pending renders and suspends, a synchronous throw is
routed to `failure` like a rejection. -/
def performTaskF (P : Program) (p : Fns) (cid tname : String)
    (data : Option Json) (s : Engine) : Except EngErr (Engine × TaskRes) :=
  match s.getInst cid with
  | none => .error (.componentNotFound cid)
  | some inst =>
    match P.defs.get? inst.compRef with
    | none => .error .badProgram
    | some cfg =>
      match alookup cfg.tasks tname with
      | none => .error (.taskNotFound cid tname)
      | some th =>
        let td := th data
        let ctx : Ctx :=
          { props := inst.props, state := inst.state,
            rootState := s.rootState, event := false }
        match td.perform with
        | .value v =>
            let s₁ := { s with taskLog :=
              s.taskLog ++ [.performed tname false, .succeeded cid tname] }
            let next := match td.success with | some f => f v ctx | none => none
            .ok (s₁, .immediate next)
        | .promise => do
            let s₁ := { s with taskLog := s.taskLog ++ [.performed tname true] }
            -- "Render pending state updates"
            let (s₂, _) ← p.renderCI cid s₁
            let s₃ := { s₂ with pending := s₂.pending ++
              [{ iid := cid, compRef := inst.compRef, tname := tname,
                 data := data, pstate := inst.state, pprops := inst.props }] }
            .ok (s₃, .pendingRes)
        | .throws e =>
            -- `catch (err) { log.taskFailure(...); Promise.resolve(runFailure(err)) }`
            let s₁ := { s with taskLog := s.taskLog ++ [.failed cid tname e] }
            let next := match td.failure with | some f => f e ctx | none => none
            .ok (s₁, .immediate next)

/-- `runNext` (lines 292-307): no continuation renders the instance; a
thunk is invoked with `internalKey`; an array increments the nesting
counter, resolves each element, decrements and renders. -/
def runNextF (p : Fns) (iid : String) (next : Option NextV) (s : Engine) :
    Except EngErr Engine :=
  match next with
  | none => do
      let (s₁, _) ← p.renderCI iid s
      .ok s₁
  | some (.thunk t) => invokeThunkVia p t s
  | some (.list ts) => do
      let s₁ := { s with noRender := s.noRender + 1 }
      let s₂ ← runThunkList (invokeThunkVia p) ts s₁
      let s₃ := { s₂ with noRender := s₂.noRender - 1 }
      let (s₄, _) ← p.renderCI iid s₃
      .ok s₄

/-- `renderComponentInstance` (lines 310-359): when the nesting counter
is zero, re-render from the root on `rootStateChanged`, else render this
instance on `stateChanged` and, when it is the pass's render root and has
a previous vnode, patch and clear the dirty flags. -/
def renderCIF (P : Program) (p : Fns) (iid : String) (s : Engine) :
    Except EngErr (Engine × Option VNodeT) :=
  match s.getInst iid with
  | none => .ok (s, none)
  | some inst =>
    if s.noRender = 0 then
      if s.rootStateChanged then
        let rootInstance := s.getInst "app"
        let s₁ := { s with rootStateChanged := false }
        match rootInstance with
        | some _ => p.renderCI "app" s₁
        | none =>
            let s₂ := s₁.updInst iid (fun i => { i with prevProps := i.props })
            .ok (s₂, (s₂.getInst iid).bind Instance.vnode)
      else if s.stateChanged then
        let isRenderRoot := s.renderRootId.isNone
        let s₁ := if isRenderRoot then { s with renderRootId := some iid } else s
        let prevVNode := inst.vnode
        match P.defs.get? inst.compRef with
        | none => .error .badProgram
        | some cfg => do
          let reqs := cfg.view iid
            { props := inst.props, state := inst.state,
              rootState := s₁.rootState, event := false }
          let (s₂, kids) ← renderKids p.renderChild reqs s₁
          let vn := VNodeT.node iid kids
          let s₃ := s₂.updInst iid (fun i => { i with vnode := some vn })
          let s₄ := { s₃ with viewLog := s₃.viewLog ++ [iid] }
          let s₅ :=
            match isRenderRoot, prevVNode with
            | true, some pv =>
                let sp := doPatch s₄ pv vn
                let sp₂ := { sp with patchCount := sp.patchCount + 1,
                                     stateChanged := false,
                                     renderRootId := none }
                clearRenderFlags sp₂
            | _, _ => s₄
          -- `publish("patch")` when isRenderRoot: no claim observes it
          let s₆ := s₅.updInst iid (fun i => { i with prevProps := i.props })
          .ok (s₆, (s₆.getInst iid).bind Instance.vnode)
      else
        let s₁ := s.updInst iid (fun i => { i with prevProps := i.props })
        .ok (s₁, (s₁.getInst iid).bind Instance.vnode)
    else
      let s₁ := s.updInst iid (fun i => { i with prevProps := i.props })
      .ok (s₁, (s₁.getInst iid).bind Instance.vnode)

/-- The render function returned by `component` (lines 366-381): strip a
leading `#`, enforce id uniqueness within a pass, mark the instance as
part of the current render and call `renderComponent`. -/
def renderChildF (p : Fns) (comp : Nat) (idStr : String) (props : Option Nat)
    (s : Engine) : Except EngErr (Engine × Option VNodeT) :=
  let id := stripHash idStr
  if id.length = 0 then .error (.duplicateId id)
  else
    match s.getInst id with
    | some ex =>
        if s.noRender = 0 ∧ ex.inCurrentRender then .error (.duplicateId id)
        else
          let s₁ := s.updInst id (fun i => { i with inCurrentRender := true })
          p.renderComponent comp id props s₁
    | none => p.renderComponent comp id props s

/-- Lines 455-462 of `renderComponent`: when the configuration has an
`init` continuation, run it under the nesting counter. -/
def renderInitF (p : Fns) (cfg : CompDef) (id : String) (s₁ : Engine) :
    Except EngErr Engine :=
  match cfg.init with
  | some nxt => do
      let si := { s₁ with noRender := s₁.noRender + 1 }
      let si₂ ← p.runNext id (some nxt) si
      pure { si₂ with noRender := si₂.noRender - 1 }
  | none => pure s₁

/-- Lines 470-477 of `renderComponent`: the first render of a freshly
created instance (reads the instance's current state, which `init`
actions may have advanced). -/
def renderFreshViewF (p : Fns) (cfg : CompDef) (id : String)
    (props : Option Nat) (s₃ : Engine) : Except EngErr (Engine × Option VNodeT) :=
  match s₃.getInst id with
  | none => .error .badProgram
  | some i2 => do
      let s₄ := { s₃ with viewLog := s₃.viewLog ++ [id] }
      let reqs := cfg.view id
        { props := props, state := i2.state,
          rootState := s₄.rootState, event := false }
      let (s₅, kids) ← renderKids p.renderChild reqs s₄
      let vn := VNodeT.node id kids
      let s₆ := s₅.updInst id
        (fun i => { i with vnode := some vn, prevProps := props })
      .ok (s₆, some vn)

/-- `renderComponent` (lines 388-478): an existing instance re-renders
its view only when the incoming props reference differs; a fresh id runs
the state initializer, registers the instance, runs `init` under the
nesting counter (`renderInitF`), sets `rootState` for the root and
renders the first vnode (`renderFreshViewF`). -/
def renderComponentF (P : Program) (p : Fns) (comp : Nat) (id : String)
    (props : Option Nat) (s : Engine) : Except EngErr (Engine × Option VNodeT) :=
  -- `deepFreeze(props)`: reference-transparent (modelled below)
  let isRoot := id = "app"
  match s.getInst id with
  | some existing =>
      let propsChanged := existing.props != props
      let s₁ := s.updInst id (fun i => { i with props := props })
      if propsChanged then
        match P.defs.get? existing.compRef with
        | none => .error .badProgram
        | some cfg => do
          let s₂ := { s₁ with viewLog := s₁.viewLog ++ [id] }
          let reqs := cfg.view id
            { props := props, state := existing.state,
              rootState := s₂.rootState, event := false }
          let (s₃, kids) ← renderKids p.renderChild reqs s₂
          let vn := VNodeT.node id kids
          let s₄ := s₃.updInst id
            (fun i => { i with vnode := some vn, prevProps := i.props })
          .ok (s₄, some vn)
      else
        .ok (s₁, existing.vnode)
  | none =>
      match P.defs.get? comp with
      | none => .error .badProgram
      | some cfg => do
        let state : Option Nat := cfg.stateInit.map (fun f => f props)
        let inst : Instance :=
          { id := id, compRef := comp, state := state, props := props,
            prevProps := none, vnode := none, isRoot := isRoot,
            inCurrentRender := true }
        let s₁ := s.setInst id inst
        let s₂ ← renderInitF p cfg id s₁
        -- line 467: `rootState = state` — the *initial* state
        let s₃ := if isRoot then { s₂ with rootState := state } else s₂
        renderFreshViewF p cfg id props s₃

/-- The `.then`/`.catch` continuations installed by `performTask` and
`createTaskThunk` for a promise-returning `perform`: route the
settlement to `success`/`failure` (reading the current global
`rootState`, but the captured `state`/`props`) and run the resulting
continuation. -/
def settleF (P : Program) (p : Fns) (pd : Pending) (res : SettleRes)
    (s : Engine) : Except EngErr Engine :=
  match P.defs.get? pd.compRef with
  | none => .error .badProgram
  | some cfg =>
    match alookup cfg.tasks pd.tname with
    | none => .error .badProgram
    | some th =>
      let td := th pd.data
      let ctx : Ctx :=
        { props := pd.pprops, state := pd.pstate,
          rootState := s.rootState, event := false }
      match res with
      | .resolved v =>
          let s₁ := { s with taskLog := s.taskLog ++ [.succeeded pd.iid pd.tname] }
          let next := match td.success with | some f => f v ctx | none => none
          p.runNext pd.iid next s₁
      | .rejected e =>
          let s₁ := { s with taskLog := s.taskLog ++ [.failed pd.iid pd.tname e] }
          let next := match td.failure with | some f => f e ctx | none => none
          p.runNext pd.iid next s₁

/-- The engine of jetix.ts, fuel-indexed: level `fuel + 1` makes all its
recursive calls at level `fuel`.  Each field is the transcription of the
correspondingly named source function. -/
def mkFns (P : Program) : Nat → Fns
  | 0 => errFns
  | fuel + 1 =>
    let p := mkFns P fuel
    { invokeAction := invokeActionF p
      invokeTask := invokeTaskF p
      executeAction := executeActionF P p
      performTask := performTaskF P p
      runNext := runNextF p
      renderCI := renderCIF P p
      renderChild := renderChildF p
      renderComponent := renderComponentF P p
      settle := settleF P p }


/-- `resetAppState` (lines 110-119): clear the registry, both thunk
caches, `rootState` and `renderRootId`.  (The batching flags and logs
are module variables that `resetAppState` does not touch.) -/
def resetAppState (s : Engine) : Engine :=
  { s with registry := [], actionCache := [], taskCache := [],
           rootState := none, renderRootId := none }

/-- `mount` (lines 480-508): reset, render the root component under id
`"app"`, patch it against the mount element (no component vnodes are
removed by the first patch) and reset the `inCurrentRender` flags. -/
def mountApp (P : Program) (fuel : Nat) (rootComp : Nat) (props : Option Nat)
    (s : Engine) : Except EngErr Engine := do
  let s₀ := resetAppState s
  let p := mkFns P fuel
  let (s₁, _) ← p.renderChild rootComp "app" props s₀
  let s₂ := { s₁ with patchCount := s₁.patchCount + 1 }
  .ok (clearRenderFlags s₂)

/-- The initial engine state (module load). -/
def emptyEngine : Engine where
  registry := []
  actionCache := []
  taskCache := []
  nextThunkRef := 0
  nextObjRef := 0
  rootState := none
  noRender := 0
  rootStateChanged := false
  stateChanged := false
  renderRootId := none
  patchCount := 0
  viewLog := []
  taskLog := []
  pending := []

/-! ## The immutability guard: `deepFreeze`

A separate object-graph model for `deepFreeze` (lines 556-570) and the
freezing performed before handlers run: `executeAction` freezes the
previous state (`const prevStateFrozen = deepFreeze(prevState)`, line 224)
and `renderComponent` freezes incoming props (`deepFreeze(props)`,
line 393).  Object fields are fixed (freezing only sets the internal
frozen bit); the set of frozen objects is the mutable part. -/

/-- A property value: a primitive (including `null`) or a reference to
another object or function. -/
inductive JsVal where
  | prim : JsVal
  | ref : Nat → JsVal
deriving Repr, DecidableEq

/-- An object graph: object `r` has the own enumerable properties
`objs[r]`. -/
structure JsHeap where
  objs : List (List (String × JsVal))

/-- The object-valued (or function-valued), non-null own properties of
`r` — the ones `deepFreeze` recurses into. -/
def childrenOf (H : JsHeap) (r : Nat) : List Nat :=
  match H.objs.get? r with
  | some fields => fields.filterMap (fun f => match f.2 with | .ref n => some n | .prim => none)
  | none => []

/-- `Object.freeze(o)` on the frozen-set. -/
def freezeOne (r : Nat) (F : List Nat) : List Nat :=
  if r ∈ F then F else r :: F

/-- The recursion of `deepFreeze` over the children of an object:
`if (... && !Object.isFrozen(o[p])) deepFreeze(o[p])`, checked as the
iteration reaches each property. -/
def freezeKids (rec : Nat → List Nat → Option (List Nat)) :
    List Nat → List Nat → Option (List Nat)
  | [], F => some F
  | c :: cs, F =>
      if c ∈ F then freezeKids rec cs F
      else
        match rec c F with
        | some F' => freezeKids rec cs F'
        | none => none

/-- `deepFreeze(o)` (lines 556-570), fuel-indexed: freeze `o` first,
then recurse into every enumerable non-null object/function-valued
property that is not already frozen. -/
def deepFreezeF : Nat → JsHeap → Nat → List Nat → Option (List Nat)
  | 0, _, _, _ => none
  | fuel + 1, H, r, F => freezeKids (deepFreezeF fuel H) (childrenOf H r) (freezeOne r F)

/-- Replace (or add) an own property. -/
def setField (k : String) (v : JsVal) : List (String × JsVal) → List (String × JsVal)
  | [] => [(k, v)]
  | (k', v') :: rest => if k' = k then (k', v) :: rest else (k', v') :: setField k v rest

/-- Strict-mode assignment `target[k] = v`: throws a `TypeError` when the
target object is frozen, otherwise updates the field. -/
def assignProp (H : JsHeap) (F : List Nat) (r : Nat) (k : String) (v : JsVal) :
    Except Unit JsHeap :=
  if r ∈ F then .error ()
  else
    match H.objs.get? r with
    | some fs => .ok { objs := H.objs.set r (setField k v fs) }
    | none => .ok H

/-- Reachability in the object graph along own enumerable
object-valued properties. -/
inductive Reach (H : JsHeap) (r : Nat) : Nat → Prop where
  | refl : Reach H r r
  | step : ∀ {a b : Nat}, Reach H r a → b ∈ childrenOf H a → Reach H r b

/-- Hereditarily frozen: every frozen object's object-valued children
are frozen too.  `deepFreeze` establishes and preserves this; it is the
precondition under which "stop at already-frozen values" is sound. -/
def HFrozen (H : JsHeap) (F : List Nat) : Prop :=
  ∀ x ∈ F, ∀ c ∈ childrenOf H x, c ∈ F

/-- Closure of a frozen-set extension: every object of `F'` was already
in `F` or has all its object-valued children in `F'`.  This is what one
pass of `deepFreeze` guarantees about the objects it adds. -/
def NewClosed (H : JsHeap) (F F' : List Nat) : Prop :=
  ∀ x ∈ F', x ∈ F ∨ (∀ c ∈ childrenOf H x, c ∈ F')

/-- The per-handler-context references: the state, props and root-state
objects a handler can reach through its `Context`. -/
structure CtxRefs where
  state : Nat
  props : Nat
  rootState : Nat

/-- An object reachable from a handler's context. -/
def ctxReachable (H : JsHeap) (c : CtxRefs) (x : Nat) : Prop :=
  Reach H c.state x ∨ Reach H c.props x ∨ Reach H c.rootState x

/-- A three-object heap: object 0 (a state object) and object 2 (the
root-state object) each carry one primitive property; object 1 (a props
object) is empty. -/
def c7H : JsHeap := { objs := [[("a", JsVal.prim)], [], [("b", JsVal.prim)]] }

/-! ## Concrete example programs (used to instantiate the theorems) -/

/-- Unwrap a successful engine run (total helper for building concrete
states). -/
def runOr (e : Except EngErr Engine) : Engine :=
  match e with
  | .ok s => s
  | .error _ => emptyEngine

/-- The error of a failed run, if any. -/
def errOf {α : Type} : Except EngErr α → Option EngErr
  | .error e => some e
  | .ok _ => none

/-- A handler that always moves to a fresh state reference and declares
no continuation. -/
def incHandler : String → Option Json → Ctx → HandlerOut :=
  fun _ _ ctx => { state := some (ctx.state.getD 0 + 1), next := none }

/-- A handler that returns the state reference it received. -/
def noOpHandler : String → Option Json → Ctx → HandlerOut :=
  fun _ _ ctx => { state := ctx.state, next := none }

/-- A root handler that keeps its state and continues with an array of
two state-updating root actions. -/
def batchHandler : String → Option Json → Ctx → HandlerOut :=
  fun _ _ ctx =>
    { state := ctx.state,
      next := some (.list [.action "app" "Inc2" none, .action "app" "Inc2" none]) }

def leafC : CompDef where
  stateInit := some (fun _ => 0)
  init := none
  actions := [("Inc", incHandler), ("NoOp", noOpHandler)]
  tasks := []
  view := fun _ _ => []

/-- A root component rendering one propless child `"child"`.
`SetTheme` updates root state; `Batch` keeps its state and continues
with an array of two `Inc2` root actions; `Inc2` updates root state;
`NoOpR` keeps the state reference. -/
def rootC : CompDef where
  stateInit := some (fun _ => 100)
  init := none
  actions :=
    [("SetTheme", incHandler), ("Batch", batchHandler),
     ("Inc2", incHandler), ("NoOpR", noOpHandler)]
  tasks := []
  view := fun _ _ => [⟨1, "child", .pnone⟩]

/-- A handler that always resets the state to the reference `0`. -/
def zeroHandler : String → Option Json → Ctx → HandlerOut :=
  fun _ _ _ => { state := some 0, next := none }

/-- A root component whose view renders the child only while its state
is `0` (models a view that conditionally includes a child, as in the
teardown tests). -/
def swapRootC : CompDef where
  stateInit := some (fun _ => 0)
  init := none
  actions := [("Inc", incHandler), ("Dec", zeroHandler)]
  tasks := []
  view := fun _ ctx => if ctx.state.getD 0 = 0 then [⟨1, "child", .pnone⟩] else []

/-- A root component with tasks: `Val` performs to the value `5`
synchronously, `Boom` throws synchronously and has no `failure`
handler, `Pend` returns a promise; `Apply` updates state. -/
def taskC : CompDef where
  stateInit := some (fun _ => 0)
  init := none
  actions :=
    [("Apply", fun _ _ ctx => { state := some (ctx.state.getD 0 + 1), next := none })]
  tasks :=
    [("Val", fun _ =>
       { perform := .value (.jnum 5),
         success := some (fun _ _ => some (.thunk (.action "app" "Apply" none))),
         failure := some (fun _ _ => none) }),
     ("Boom", fun _ =>
       { perform := .throws (.jnum 3),
         success := some (fun _ _ => some (.thunk (.action "app" "Apply" none))),
         failure := none }),
     ("Pend", fun _ =>
       { perform := .promise,
         success := some (fun _ _ => some (.thunk (.action "app" "Apply" none))),
         failure := some (fun _ _ => some (.thunk (.action "app" "Apply" none))) })]
  view := fun _ _ => []

/-- The two-component example program: definition 0 is `rootC`,
definition 1 is `leafC`. -/
def wP : Program := { defs := [rootC, leafC] }

/-- The task example program. -/
def wPT : Program := { defs := [taskC] }

/-- The two-component program mounted: root `"app"` with child
`"child"`. -/
def wS : Engine := runOr (mountApp wP 10 0 none emptyEngine)

/-- The task program mounted. -/
def wST : Engine := runOr (mountApp wPT 10 0 none emptyEngine)

/-- The conditional-child program. -/
def wP2 : Program := { defs := [swapRootC, leafC] }

/-- The conditional-child program mounted (root state `0`, child live). -/
def wS2 : Engine := runOr (mountApp wP2 10 0 none emptyEngine)

/-- `wS2` after the child's `Inc` action (child state advanced to `1`),
with both thunk caches seeded as if the child's and root's thunks had
been created (references `0`, `1`, `2`; allocator at `3`). -/
def wS2c : Engine :=
  { (runOr ((mkFns wP2 20).invokeAction "child" "Inc" none .internalKey wS2)) with
    actionCache := [("child:Inc:", 0), ("app:Inc:", 1)],
    taskCache := [("child:T:", 2)],
    nextThunkRef := 3 }

/-- `wS2c` after the root's `Inc` action: the root state leaves `0`, the
re-render drops the child from the tree, and the patch tears it down. -/
def wS2after : Engine :=
  runOr ((mkFns wP2 20).invokeAction "app" "Inc" none .internalKey wS2c)

/-- `wS2after` after the root's `Dec` action: the root state returns to
`0` and the child reappears in the render pass. -/
def wS2re : Engine :=
  runOr ((mkFns wP2 20).invokeAction "app" "Dec" none .internalKey wS2after)

/-- The root instance of `wS` after mounting. -/
def wAppInst : Instance where
  id := "app"
  compRef := 0
  state := some 100
  props := none
  prevProps := none
  vnode := some (VNodeT.node "app" [VNodeT.node "child" []])
  isRoot := true
  inCurrentRender := false

/-- The child instance of `wS` after mounting. -/
def wChildInst : Instance where
  id := "child"
  compRef := 1
  state := some 0
  props := none
  prevProps := none
  vnode := some (VNodeT.node "child" [])
  isRoot := false
  inCurrentRender := false

/-- A root component identical to `rootC` except that its view passes a
*fresh* props object reference to the child on every render (models a
view body that writes an object literal for the child's props). -/
def rootCF : CompDef where
  stateInit := some (fun _ => 100)
  init := none
  actions := [("SetTheme", incHandler), ("NoOpR", noOpHandler)]
  tasks := []
  view := fun _ _ => [⟨1, "child", .pfresh⟩]

/-- The fresh-props two-component program. -/
def wPF : Program := { defs := [rootCF, leafC] }

/-- The fresh-props program mounted. -/
def wSF : Engine := runOr (mountApp wPF 10 0 none emptyEngine)

/-! ## Invariant predicates for the engine functions -/

/-- The instance fields that dispatch under a non-zero nesting counter
can never change (only `state` and `prevProps` may move). -/
def InstShape (a b : Instance) : Prop :=
  a.id = b.id ∧ a.compRef = b.compRef ∧ a.isRoot = b.isRoot ∧
  a.props = b.props ∧ a.vnode = b.vnode ∧ a.inCurrentRender = b.inCurrentRender

/-- Option-lifted `InstShape`. -/
def OShape : Option Instance → Option Instance → Prop
  | some a, some b => InstShape a b
  | none, none => True
  | _, _ => False

/-- The registry keeps the same ids, and each instance keeps its shape. -/
def RegShape (s s' : Engine) : Prop :=
  ∀ i, OShape (s.getInst i) (s'.getInst i)

/-- What is preserved by any engine step executed while the nesting
counter is non-zero (renders suppressed): no patch, no view invocation,
no renderRoot claim, no cache or allocator movement, the registry shape,
and `stateChanged` once set stays set. -/
def SuppCore (s s' : Engine) : Prop :=
  s'.patchCount = s.patchCount ∧ s'.viewLog = s.viewLog ∧
  s'.renderRootId = s.renderRootId ∧ s'.actionCache = s.actionCache ∧
  s'.taskCache = s.taskCache ∧ s'.nextThunkRef = s.nextThunkRef ∧
  s'.nextObjRef = s.nextObjRef ∧
  (s.stateChanged = true → s'.stateChanged = true) ∧ RegShape s s'

/-- Suppressed-step preservation, including the nesting counter. -/
def SuppEq (s s' : Engine) : Prop :=
  s'.noRender = s.noRender ∧ SuppCore s s'

/-- Rendering a component subtree never patches, never touches the
nesting counter and never claims or releases the render root. -/
def RenderPres (s s' : Engine) : Prop :=
  s'.noRender = s.noRender ∧ s'.patchCount = s.patchCount ∧
  s'.renderRootId = s.renderRootId

/-- A dispatch step performs at most one patch, and only when the
nesting counter is zero. -/
def PatchLe (s s' : Engine) : Prop :=
  s'.noRender = s.noRender ∧
  s'.patchCount ≤ s.patchCount + (if s.noRender = 0 then 1 else 0)

/-- The joint invariant of the engine functions, proved for every fuel
level of `mkFns`. -/
structure GoodFns (P : Program) (p : Fns) : Prop where
  invokeAction : ∀ cid name data arg s s',
    p.invokeAction cid name data arg s = .ok s' →
    PatchLe s s' ∧ (1 ≤ s.noRender → SuppEq s s')
  invokeTask : ∀ cid tname data arg s s',
    p.invokeTask cid tname data arg s = .ok s' →
    PatchLe s s' ∧ (1 ≤ s.noRender → SuppEq s s')
  executeAction : ∀ cid name data ev s s',
    p.executeAction cid name data ev s = .ok s' →
    PatchLe s s' ∧ (1 ≤ s.noRender → SuppEq s s')
  performTask : ∀ cid tname data s s' r,
    p.performTask cid tname data s = .ok (s', r) →
    (s'.noRender = s.noRender ∧
     s'.patchCount ≤ s.patchCount + (if s.noRender = 0 then 1 else 0)) ∧
    (∀ n, r = .immediate n → s'.patchCount = s.patchCount) ∧
    (1 ≤ s.noRender → SuppEq s s')
  runNext : ∀ iid next s s',
    p.runNext iid next s = .ok s' →
    PatchLe s s' ∧ (1 ≤ s.noRender → SuppEq s s')
  renderCI : ∀ iid s s' v,
    p.renderCI iid s = .ok (s', v) →
    PatchLe s s' ∧ (1 ≤ s.noRender → SuppEq s s')
  renderChild : ∀ c i pr s s' v,
    p.renderChild c i pr s = .ok (s', v) → RenderPres s s'
  renderComponent : ∀ c i pr s s' v,
    p.renderComponent c i pr s = .ok (s', v) → RenderPres s s'
  settle : ∀ pd r s s',
    p.settle pd r s = .ok s' →
    PatchLe s s' ∧ (1 ≤ s.noRender → SuppEq s s')

/-- An array element as in spec property 3: an action thunk on a live
instance whose handler always updates the state reference and declares
no further continuation ("updates state once"). -/
def SimpleActionElem (P : Program) (s : Engine) : ThunkRefV → Prop
  | .action c n _ =>
      ∃ inst, s.getInst c = some inst ∧
      ∃ cfg, P.defs.get? inst.compRef = some cfg ∧
      ∃ hnd, alookup cfg.actions n = some hnd ∧
        ∀ sid pl ctx, (hnd sid pl ctx).next = none ∧ (hnd sid pl ctx).state ≠ ctx.state
  | .task _ _ _ => False

/-- Teardown precondition for an instance id at patch time: it is
registered but not part of the render pass that just completed, and it
is not the pass's render root. -/
def TearPre (s : Engine) (i : String) : Prop :=
  (∃ inst, s.getInst i = some inst ∧ inst.inCurrentRender = false) ∧
  s.renderRootId ≠ some i

/-- An instance id fully torn down: gone from the registry, and no
cached action or task thunk key starts with `id + ":"`. -/
def Purged (s : Engine) (i : String) : Prop :=
  s.getInst i = none ∧
  (∀ e ∈ s.actionCache, strLeads (i ++ ":") e.1 = false) ∧
  (∀ e ∈ s.taskCache, strLeads (i ++ ":") e.1 = false)

/-! ## Basic lemmas: lookups and registry operations -/

theorem alookup_append {α : Type} (l l' : List (String × α)) (k : String) :
    alookup (l ++ l') k = ((alookup l k).elim (alookup l' k) some) := by
  induction l with
  | nil => simp [alookup]
  | cons e rest ih =>
      by_cases h : e.1 = k <;> simp [alookup, h, ih]

theorem alookup_mem {α : Type} {l : List (String × α)} {k : String} {v : α}
    (h : alookup l k = some v) : (k, v) ∈ l := by
  induction l with
  | nil => simp [alookup] at h
  | cons e rest ih =>
      obtain ⟨k₀, v₀⟩ := e
      by_cases hk : k₀ = k
      · subst hk
        simp [alookup] at h
        subst h
        exact List.mem_cons_self _ _
      · simp only [alookup, if_neg hk] at h
        exact List.mem_cons_of_mem _ (ih h)

theorem alookup_updAssoc {α : Type} (f : α → α) (l : List (String × α)) (key k : String) :
    alookup (updAssoc f l key) k =
      (if key = k then (alookup l k).map f else alookup l k) := by
  induction l with
  | nil => simp [alookup, updAssoc]
  | cons e rest ih =>
      obtain ⟨k₀, v₀⟩ := e
      by_cases h1 : k₀ = key
      · subst h1
        by_cases h2 : k₀ = k
        · subst h2; simp [alookup, updAssoc]
        · have hkk : ¬ k₀ = k := h2
          simp [alookup, updAssoc, hkk]
      · by_cases h2 : k₀ = k
        · subst h2
          have hkk : ¬ key = k₀ := fun h => h1 h.symm
          simp [alookup, updAssoc, h1, hkk]
        · simp [alookup, updAssoc, h1, h2, ih]

theorem getInst_updInst_self (s : Engine) (i : String) (f : Instance → Instance) :
    (s.updInst i f).getInst i = (s.getInst i).map f := by
  simp [Engine.getInst, Engine.updInst, alookup_updAssoc]

theorem getInst_updInst_ne (s : Engine) (i j : String) (f : Instance → Instance)
    (h : i ≠ j) : (s.updInst i f).getInst j = s.getInst j := by
  simp [Engine.getInst, Engine.updInst, alookup_updAssoc, h]

theorem getInst_updInst (s : Engine) (i j : String) (f : Instance → Instance) :
    (s.updInst i f).getInst j =
      (if i = j then (s.getInst j).map f else s.getInst j) := by
  by_cases h : i = j
  · subst h; simp [getInst_updInst_self]
  · simp [getInst_updInst_ne s i j f h, h]

theorem getInst_setInst (s : Engine) (i j : String) (inst : Instance) :
    (s.setInst i inst).getInst j =
      ((s.getInst j).elim (if i = j then some inst else none) some) := by
  simp only [Engine.getInst, Engine.setInst, alookup_append]
  cases alookup s.registry j with
  | none => simp [alookup]
  | some a => simp

theorem alookup_filter_keep {α : Type} (p : String × α → Bool)
    (l : List (String × α)) (k : String) (hkeep : ∀ v, p (k, v) = true) :
    alookup (l.filter p) k = alookup l k := by
  induction l with
  | nil => simp [alookup]
  | cons e rest ih =>
      obtain ⟨k₀, v₀⟩ := e
      by_cases hk : k₀ = k
      · subst hk; simp [List.filter_cons, hkeep v₀, alookup]
      · cases hpv : p (k₀, v₀) <;> simp [List.filter_cons, hpv, alookup, hk, ih]

theorem alookup_filter_drop {α : Type} (p : String × α → Bool)
    (l : List (String × α)) (k : String) (hdrop : ∀ v, p (k, v) = false) :
    alookup (l.filter p) k = none := by
  induction l with
  | nil => simp [alookup]
  | cons e rest ih =>
      obtain ⟨k₀, v₀⟩ := e
      by_cases hk : k₀ = k
      · subst hk; simp [List.filter_cons, hdrop v₀, alookup, ih]
      · cases hpv : p (k₀, v₀) <;> simp [List.filter_cons, hpv, alookup, hk, ih]

theorem getInst_delInst (s : Engine) (i j : String) :
    (s.delInst i).getInst j = (if i = j then none else s.getInst j) := by
  by_cases h : i = j
  · subst h
    simp only [Engine.getInst, Engine.delInst, if_pos rfl]
    exact alookup_filter_drop _ _ _ (fun v => by simp)
  · have hji : ¬ j = i := fun hj => h hj.symm
    simp only [Engine.getInst, Engine.delInst, if_neg h]
    exact alookup_filter_keep _ _ _ (fun v => by simp [hji])

theorem alookup_map_pair {α : Type} (g : α → α) (l : List (String × α)) (k : String) :
    alookup (l.map (fun e => (e.1, g e.2))) k = (alookup l k).map g := by
  induction l with
  | nil => simp [alookup]
  | cons e rest ih =>
      by_cases h : e.1 = k <;> simp [alookup, h, ih]

theorem getInst_clearRenderFlags (s : Engine) (j : String) :
    (clearRenderFlags s).getInst j =
      (s.getInst j).map (fun i => { i with inCurrentRender := false }) := by
  simp only [Engine.getInst, clearRenderFlags]
  exact alookup_map_pair (fun i => { i with inCurrentRender := false }) s.registry j

/-! ## `mkFns` projections -/

theorem mkFns_invokeAction (P : Program) (n : Nat) :
    (mkFns P (n + 1)).invokeAction = invokeActionF (mkFns P n) := rfl

theorem mkFns_invokeTask (P : Program) (n : Nat) :
    (mkFns P (n + 1)).invokeTask = invokeTaskF (mkFns P n) := rfl

theorem mkFns_executeAction (P : Program) (n : Nat) :
    (mkFns P (n + 1)).executeAction = executeActionF P (mkFns P n) := rfl

theorem mkFns_performTask (P : Program) (n : Nat) :
    (mkFns P (n + 1)).performTask = performTaskF P (mkFns P n) := rfl

theorem mkFns_runNext (P : Program) (n : Nat) :
    (mkFns P (n + 1)).runNext = runNextF (mkFns P n) := rfl

theorem mkFns_renderCI (P : Program) (n : Nat) :
    (mkFns P (n + 1)).renderCI = renderCIF P (mkFns P n) := rfl

theorem mkFns_renderChild (P : Program) (n : Nat) :
    (mkFns P (n + 1)).renderChild = renderChildF (mkFns P n) := rfl

theorem mkFns_renderComponent (P : Program) (n : Nat) :
    (mkFns P (n + 1)).renderComponent = renderComponentF P (mkFns P n) := rfl

theorem mkFns_settle (P : Program) (n : Nat) :
    (mkFns P (n + 1)).settle = settleF P (mkFns P n) := rfl

/-! ## Shape and suppression algebra -/

theorem instShape_refl (a : Instance) : InstShape a a := by
  simp [InstShape]

theorem instShape_trans {a b c : Instance} (h1 : InstShape a b) (h2 : InstShape b c) :
    InstShape a c := by
  obtain ⟨x1, x2, x3, x4, x5, x6⟩ := h1
  obtain ⟨y1, y2, y3, y4, y5, y6⟩ := h2
  exact ⟨x1.trans y1, x2.trans y2, x3.trans y3, x4.trans y4, x5.trans y5, x6.trans y6⟩

theorem oShape_refl (o : Option Instance) : OShape o o := by
  cases o <;> simp [OShape, instShape_refl]

theorem oShape_trans {a b c : Option Instance} (h1 : OShape a b) (h2 : OShape b c) :
    OShape a c := by
  cases a <;> cases b <;> cases c <;> simp_all [OShape]
  exact instShape_trans h1 h2

theorem regShape_refl (s : Engine) : RegShape s s := fun _ => oShape_refl _

theorem regShape_trans {a b c : Engine} (h1 : RegShape a b) (h2 : RegShape b c) :
    RegShape a c := fun i => oShape_trans (h1 i) (h2 i)

theorem suppCore_refl (s : Engine) : SuppCore s s :=
  ⟨rfl, rfl, rfl, rfl, rfl, rfl, rfl, fun h => h, regShape_refl s⟩

theorem suppCore_trans {a b c : Engine} (h1 : SuppCore a b) (h2 : SuppCore b c) :
    SuppCore a c := by
  obtain ⟨x1, x2, x3, x4, x5, x6, x7, x8, x9⟩ := h1
  obtain ⟨y1, y2, y3, y4, y5, y6, y7, y8, y9⟩ := h2
  exact ⟨y1.trans x1, y2.trans x2, y3.trans x3, y4.trans x4, y5.trans x5,
    y6.trans x6, y7.trans x7, fun h => y8 (x8 h), regShape_trans x9 y9⟩

theorem suppEq_refl (s : Engine) : SuppEq s s := ⟨rfl, suppCore_refl s⟩

theorem suppEq_trans {a b c : Engine} (h1 : SuppEq a b) (h2 : SuppEq b c) :
    SuppEq a c := ⟨h2.1.trans h1.1, suppCore_trans h1.2 h2.2⟩

theorem renderPres_refl (s : Engine) : RenderPres s s := ⟨rfl, rfl, rfl⟩

theorem renderPres_trans {a b c : Engine} (h1 : RenderPres a b) (h2 : RenderPres b c) :
    RenderPres a c :=
  ⟨h2.1.trans h1.1, h2.2.1.trans h1.2.1, h2.2.2.trans h1.2.2⟩

theorem regShape_of_registry_eq {s s' : Engine} (h : s'.registry = s.registry) :
    RegShape s s' := by
  intro i
  have : s'.getInst i = s.getInst i := by simp [Engine.getInst, h]
  rw [this]; exact oShape_refl _

theorem regShape_updInst (s : Engine) (i : String) (f : Instance → Instance)
    (h : ∀ a, InstShape a (f a)) : RegShape s (s.updInst i f) := by
  intro j
  rw [getInst_updInst]
  by_cases hij : i = j
  · simp only [if_pos hij]
    cases s.getInst j with
    | none => simp [OShape]
    | some a => simpa [OShape] using h a
  · simp only [if_neg hij]; exact oShape_refl _

theorem instShape_set_state (v : Option Nat) (a : Instance) :
    InstShape a { a with state := v } := by simp [InstShape]

theorem instShape_set_prevProps (a : Instance) :
    InstShape a { a with prevProps := a.props } := by simp [InstShape]

theorem suppCore_updInst_state (s : Engine) (i : String) (v : Option Nat) :
    SuppCore s (s.updInst i (fun x => { x with state := v })) :=
  ⟨rfl, rfl, rfl, rfl, rfl, rfl, rfl, fun h => h,
   regShape_updInst s i _ (fun a => instShape_set_state v a)⟩

theorem suppCore_updInst_prevProps (s : Engine) (i : String) :
    SuppCore s (s.updInst i (fun x => { x with prevProps := x.props })) :=
  ⟨rfl, rfl, rfl, rfl, rfl, rfl, rfl, fun h => h,
   regShape_updInst s i _ (fun a => instShape_set_prevProps a)⟩

theorem patchLe_comp_pre {s s₃ s' : Engine} (h : PatchLe s₃ s')
    (hn : s₃.noRender = s.noRender) (hpc : s₃.patchCount = s.patchCount) :
    PatchLe s s' := by
  obtain ⟨h1, h2⟩ := h
  rw [hpc, hn] at h2
  exact ⟨h1.trans hn, h2⟩

theorem patchLe_refl (s : Engine) : PatchLe s s := ⟨rfl, by split <;> omega⟩

theorem engine_bind_ok {α β : Type} {x : Except EngErr α} {f : α → Except EngErr β}
    {b : β} (h : x >>= f = .ok b) : ∃ a, x = .ok a ∧ f a = .ok b := by
  cases x with
  | error e => simp [Bind.bind, Except.bind] at h
  | ok a => exact ⟨a, rfl, by simpa [Bind.bind, Except.bind] using h⟩

/-- Elements of a thunk list behave well when the invокers do. -/
theorem invokeThunkVia_good {P : Program} {p : Fns} (hp : GoodFns P p) :
    ∀ t s s', invokeThunkVia p t s = .ok s' →
      PatchLe s s' ∧ (1 ≤ s.noRender → SuppEq s s') := by
  intro t s s' h
  cases t with
  | action c n d => exact hp.invokeAction _ _ _ _ _ _ h
  | task c n d => exact hp.invokeTask _ _ _ _ _ _ h

theorem runThunkList_supp (iv : ThunkRefV → Engine → Except EngErr Engine)
    (hiv : ∀ t s s', iv t s = .ok s' → 1 ≤ s.noRender → SuppEq s s') :
    ∀ ts s s', runThunkList iv ts s = .ok s' → 1 ≤ s.noRender → SuppEq s s' := by
  intro ts
  induction ts with
  | nil =>
      intro s s' h hn
      simp only [runThunkList] at h
      cases h; exact suppEq_refl s
  | cons t ts ih =>
      intro s s' h hn
      simp only [runThunkList, bind, Except.bind] at h
      cases hh : iv t s with
      | error e => rw [hh] at h; cases h
      | ok s₁ =>
          rw [hh] at h
          have e1 := hiv _ _ _ hh hn
          have hn1 : 1 ≤ s₁.noRender := by rw [e1.1]; exact hn
          exact suppEq_trans e1 (ih _ _ h hn1)

theorem renderPres_resolveProps (s : Engine) (ps : PropsSpec) :
    RenderPres s (resolveProps s ps).1 := by
  cases ps <;> simp [resolveProps] <;> exact renderPres_refl _

theorem renderKids_pres
    (rc : Nat → String → Option Nat → Engine → Except EngErr (Engine × Option VNodeT))
    (hrc : ∀ c i pr s s' v, rc c i pr s = .ok (s', v) → RenderPres s s') :
    ∀ reqs s s' vs, renderKids rc reqs s = .ok (s', vs) → RenderPres s s' := by
  intro reqs
  induction reqs with
  | nil =>
      intro s s' vs h
      simp only [renderKids] at h
      cases h; exact renderPres_refl s
  | cons r rs ih =>
      intro s s' vs h
      simp only [renderKids, bind, Except.bind] at h
      cases hh : rc r.comp r.cid (resolveProps s r.props).2 (resolveProps s r.props).1 with
      | error e => rw [hh] at h; cases h
      | ok pr₁ =>
          rw [hh] at h
          obtain ⟨s₂, v⟩ := pr₁
          dsimp only at h
          cases hh2 : renderKids rc rs s₂ with
          | error e => rw [hh2] at h; cases h
          | ok pr₂ =>
              rw [hh2] at h
              obtain ⟨s₃, vs₃⟩ := pr₂
              cases h
              exact renderPres_trans (renderPres_resolveProps s r.props)
                (renderPres_trans (hrc _ _ _ _ _ _ hh) (ih _ _ _ hh2))

theorem suppCore_set_stateChanged_or (s : Engine) (b : Bool) :
    SuppCore s { s with stateChanged := s.stateChanged || b } :=
  ⟨rfl, rfl, rfl, rfl, rfl, rfl, rfl, fun hx => by simp [hx],
   regShape_of_registry_eq rfl⟩

theorem suppCore_set_root (s : Engine) (v : Option Nat) (b : Bool) :
    SuppCore s { s with rootState := v, rootStateChanged := b } :=
  ⟨rfl, rfl, rfl, rfl, rfl, rfl, rfl, fun h => h, regShape_of_registry_eq rfl⟩

theorem suppCore_set_taskLog (s : Engine) (l : List TaskLogE) :
    SuppCore s { s with taskLog := l } :=
  ⟨rfl, rfl, rfl, rfl, rfl, rfl, rfl, fun h => h, regShape_of_registry_eq rfl⟩

theorem suppCore_set_pending (s : Engine) (l : List Pending) :
    SuppCore s { s with pending := l } :=
  ⟨rfl, rfl, rfl, rfl, rfl, rfl, rfl, fun h => h, regShape_of_registry_eq rfl⟩

theorem suppCore_set_noRender (s : Engine) (n : Nat) :
    SuppCore s { s with noRender := n } :=
  ⟨rfl, rfl, rfl, rfl, rfl, rfl, rfl, fun h => h, regShape_of_registry_eq rfl⟩

/-- The common tail of a dispatch step: its own bookkeeping writes
(`SuppCore`-compatible, nesting counter untouched) followed by a
`runNext` of a well-behaved level. -/
theorem dispatch_tail {P : Program} {p : Fns} (hp : GoodFns P p)
    {cid : String} {next : Option NextV} {s₀ sArg s' : Engine}
    (hcore : SuppCore s₀ sArg) (hn : sArg.noRender = s₀.noRender)
    (h : p.runNext cid next sArg = .ok s') :
    PatchLe s₀ s' ∧ (1 ≤ s₀.noRender → SuppEq s₀ s') := by
  obtain ⟨hb, hs⟩ := hp.runNext _ _ _ _ h
  refine ⟨patchLe_comp_pre hb hn hcore.1, fun hsup => ?_⟩
  exact suppEq_trans ⟨hn, hcore⟩ (hs (by rw [hn]; exact hsup))

/-- `destroyHook` only touches the registry and the thunk caches. -/
theorem destroyHook_fields (s : Engine) (rid : String) :
    (destroyHook s rid).noRender = s.noRender ∧
    (destroyHook s rid).patchCount = s.patchCount ∧
    (destroyHook s rid).viewLog = s.viewLog ∧
    (destroyHook s rid).stateChanged = s.stateChanged ∧
    (destroyHook s rid).rootStateChanged = s.rootStateChanged ∧
    (destroyHook s rid).renderRootId = s.renderRootId ∧
    (destroyHook s rid).rootState = s.rootState ∧
    (destroyHook s rid).nextThunkRef = s.nextThunkRef ∧
    (destroyHook s rid).nextObjRef = s.nextObjRef := by
  unfold destroyHook
  cases s.getInst rid with
  | none => simp
  | some inst =>
      dsimp only
      split <;> simp [Engine.delInst]

/-- `doPatch` (the destroy hooks) only touches the registry and the
thunk caches. -/
theorem doPatch_fields (s : Engine) (a b : VNodeT) :
    (doPatch s a b).noRender = s.noRender ∧
    (doPatch s a b).patchCount = s.patchCount ∧
    (doPatch s a b).viewLog = s.viewLog ∧
    (doPatch s a b).stateChanged = s.stateChanged ∧
    (doPatch s a b).rootStateChanged = s.rootStateChanged ∧
    (doPatch s a b).renderRootId = s.renderRootId ∧
    (doPatch s a b).rootState = s.rootState ∧
    (doPatch s a b).nextThunkRef = s.nextThunkRef ∧
    (doPatch s a b).nextObjRef = s.nextObjRef := by
  unfold doPatch
  generalize (collectIds a).filter (fun i => ¬ (collectIds b).contains i) = l
  induction l generalizing s with
  | nil => simp
  | cons r rs ih =>
      simp only [List.foldl_cons]
      obtain ⟨d1, d2, d3, d4, d5, d6, d7, d8, d9⟩ := destroyHook_fields s r
      obtain ⟨t1, t2, t3, t4, t5, t6, t7, t8, t9⟩ := ih (destroyHook s r)
      exact ⟨t1.trans d1, t2.trans d2, t3.trans d3, t4.trans d4, t5.trans d5,
        t6.trans d6, t7.trans d7, t8.trans d8, t9.trans d9⟩

theorem doPatch_noRender (s : Engine) (a b : VNodeT) :
    (doPatch s a b).noRender = s.noRender := (doPatch_fields s a b).1

theorem doPatch_patchCount (s : Engine) (a b : VNodeT) :
    (doPatch s a b).patchCount = s.patchCount := (doPatch_fields s a b).2.1

theorem executeActionF_good {P : Program} {p : Fns} (hp : GoodFns P p) :
    ∀ cid name data ev s s',
      executeActionF P p cid name data ev s = .ok s' →
      PatchLe s s' ∧ (1 ≤ s.noRender → SuppEq s s') := by
  intro cid name data ev s s' h
  unfold executeActionF at h
  cases hinst : s.getInst cid with
  | none =>
      rw [hinst] at h; cases h
      exact ⟨patchLe_refl _, fun _ => suppEq_refl _⟩
  | some inst =>
      rw [hinst] at h
      dsimp only at h
      cases hcfg : P.defs.get? inst.compRef with
      | none => rw [hcfg] at h; cases h
      | some cfg =>
          rw [hcfg] at h
          dsimp only at h
          cases hact : alookup cfg.actions name with
          | none =>
              rw [hact] at h; cases h
              exact ⟨patchLe_refl _, fun _ => suppEq_refl _⟩
          | some hnd =>
              rw [hact] at h
              dsimp only at h
              cases hroot : inst.isRoot
              · rw [hroot] at h
                rw [if_neg (by simp)] at h
                refine dispatch_tail hp ?_ ?_ h
                · exact suppCore_trans (suppCore_updInst_state s cid _)
                    (suppCore_set_stateChanged_or _ _)
                · rfl
              · rw [hroot] at h
                rw [if_pos rfl] at h
                refine dispatch_tail hp ?_ ?_ h
                · exact suppCore_trans
                    (suppCore_trans (suppCore_updInst_state s cid _)
                      (suppCore_set_stateChanged_or _ _))
                    (suppCore_set_root _ _ _)
                · rfl

theorem invokeActionF_good {P : Program} {p : Fns} (hp : GoodFns P p) :
    ∀ cid name data arg s s',
      invokeActionF p cid name data arg s = .ok s' →
      PatchLe s s' ∧ (1 ≤ s.noRender → SuppEq s s') := by
  intro cid name data arg s s' h
  unfold invokeActionF at h
  cases arg with
  | domEvent =>
      cases hinst : s.getInst cid with
      | none => rw [hinst] at h; cases h
      | some _ => rw [hinst] at h; exact hp.executeAction _ _ _ _ _ _ h
  | internalKey =>
      cases hinst : s.getInst cid with
      | none => rw [hinst] at h; cases h
      | some _ => rw [hinst] at h; exact hp.executeAction _ _ _ _ _ _ h
  | payloadObj d => cases h
  | undef => cases h

theorem performTaskF_good {P : Program} {p : Fns} (hp : GoodFns P p) :
    ∀ cid tname data s s' r,
      performTaskF P p cid tname data s = .ok (s', r) →
      (s'.noRender = s.noRender ∧
       s'.patchCount ≤ s.patchCount + (if s.noRender = 0 then 1 else 0)) ∧
      (∀ n, r = .immediate n → s'.patchCount = s.patchCount) ∧
      (1 ≤ s.noRender → SuppEq s s') := by
  intro cid tname data s s' r h
  unfold performTaskF at h
  cases hinst : s.getInst cid with
  | none => rw [hinst] at h; cases h
  | some inst =>
      rw [hinst] at h
      dsimp only at h
      cases hcfg : P.defs.get? inst.compRef with
      | none => rw [hcfg] at h; cases h
      | some cfg =>
          rw [hcfg] at h
          dsimp only at h
          cases htk : alookup cfg.tasks tname with
          | none => rw [htk] at h; cases h
          | some th =>
              rw [htk] at h
              dsimp only at h
              cases hperf : (th data).perform with
              | value v =>
                  rw [hperf] at h
                  dsimp only at h
                  cases h
                  refine ⟨⟨rfl, by dsimp only; split <;> omega⟩, fun n _ => rfl, fun _ => ?_⟩
                  exact ⟨rfl, suppCore_set_taskLog _ _⟩
              | promise =>
                  rw [hperf] at h
                  simp only [bind, Except.bind] at h
                  cases hr : p.renderCI cid
                      { s with taskLog := s.taskLog ++ [.performed tname true] } with
                  | error e => rw [hr] at h; cases h
                  | ok pr =>
                      rw [hr] at h
                      obtain ⟨s₂, v⟩ := pr
                      dsimp only at h
                      cases h
                      obtain ⟨⟨hn2, hp2⟩, hs2⟩ := hp.renderCI _ _ _ _ hr
                      refine ⟨⟨hn2, hp2⟩, fun n hn => TaskRes.noConfusion hn,
                        fun hsup => ?_⟩
                      refine suppEq_trans ?_
                        (suppEq_trans (hs2 hsup) ⟨rfl, suppCore_set_pending _ _⟩)
                      exact ⟨rfl, suppCore_set_taskLog _ _⟩
              | throws e =>
                  rw [hperf] at h
                  dsimp only at h
                  cases h
                  refine ⟨⟨rfl, by dsimp only; split <;> omega⟩, fun n _ => rfl, fun _ => ?_⟩
                  exact ⟨rfl, suppCore_set_taskLog _ _⟩

theorem runNextF_good {P : Program} {p : Fns} (hp : GoodFns P p) :
    ∀ iid next s s',
      runNextF p iid next s = .ok s' →
      PatchLe s s' ∧ (1 ≤ s.noRender → SuppEq s s') := by
  intro iid next s s' h
  unfold runNextF at h
  cases next with
  | none =>
      simp only [bind, Except.bind] at h
      cases hr : p.renderCI iid s with
      | error e => rw [hr] at h; cases h
      | ok pr =>
          rw [hr] at h
          obtain ⟨s₁, v⟩ := pr
          dsimp only at h
          cases h
          exact hp.renderCI _ _ _ _ hr
  | some nv =>
      cases nv with
      | thunk t => exact invokeThunkVia_good hp _ _ _ h
      | list ts =>
          simp only [bind, Except.bind] at h
          cases hl : runThunkList (invokeThunkVia p) ts
              { s with noRender := s.noRender + 1 } with
          | error e => rw [hl] at h; cases h
          | ok s₂ =>
              rw [hl] at h
              dsimp only at h
              cases hr : p.renderCI iid { s₂ with noRender := s₂.noRender - 1 } with
              | error e => rw [hr] at h; cases h
              | ok pr =>
                  rw [hr] at h
                  obtain ⟨s₄, v⟩ := pr
                  dsimp only at h
                  cases h
                  have hsupp₁ : SuppEq { s with noRender := s.noRender + 1 } s₂ :=
                    runThunkList_supp _
                      (fun t a b hab hn => (invokeThunkVia_good hp t a b hab).2 hn)
                      ts _ _ hl (by show 1 ≤ s.noRender + 1; omega)
                  have h2n : s₂.noRender = s.noRender + 1 := hsupp₁.1
                  have h2p : s₂.patchCount = s.patchCount := hsupp₁.2.1
                  obtain ⟨hb4, hs4⟩ := hp.renderCI _ _ _ _ hr
                  have h3n : ({ s₂ with noRender := s₂.noRender - 1 } : Engine).noRender
                      = s.noRender := by simp [h2n]
                  constructor
                  · refine ⟨hb4.1.trans h3n, ?_⟩
                    have hx := hb4.2
                    rw [h3n, h2p] at hx
                    exact hx
                  · intro hsup
                    have hs4' := hs4 (by rw [h3n]; exact hsup)
                    refine ⟨hs4'.1.trans h3n, ?_⟩
                    exact suppCore_trans
                      (suppCore_trans
                        (suppCore_trans (suppCore_set_noRender s _) hsupp₁.2)
                        (suppCore_set_noRender s₂ _))
                      hs4'.2

theorem invokeTaskF_good {P : Program} {p : Fns} (hp : GoodFns P p) :
    ∀ cid tname data arg s s',
      invokeTaskF p cid tname data arg s = .ok s' →
      PatchLe s s' ∧ (1 ≤ s.noRender → SuppEq s s') := by
  intro cid tname data arg s s' h
  unfold invokeTaskF at h
  have main : ∀ (hbody : (match s.getInst cid with
      | none => Except.error (EngErr.componentNotFound cid)
      | some _ => do
          let (s₁, res) ← p.performTask cid tname data s
          match res with
          | .immediate next => p.runNext cid next s₁
          | .pendingRes => .ok s₁) = .ok s'),
      PatchLe s s' ∧ (1 ≤ s.noRender → SuppEq s s') := by
    intro hbody
    cases hinst : s.getInst cid with
    | none => rw [hinst] at hbody; cases hbody
    | some _ =>
        rw [hinst] at hbody
        simp only [bind, Except.bind] at hbody
        cases hp1 : p.performTask cid tname data s with
        | error e => rw [hp1] at hbody; cases hbody
        | ok pr =>
            rw [hp1] at hbody
            obtain ⟨s₁, res⟩ := pr
            dsimp only at hbody
            obtain ⟨⟨hn1, hple⟩, him, hsup1⟩ := hp.performTask _ _ _ _ _ _ hp1
            cases res with
            | immediate n =>
                have hpe : s₁.patchCount = s.patchCount := him n rfl
                obtain ⟨hb2, hs2⟩ := hp.runNext _ _ _ _ hbody
                constructor
                · refine ⟨hb2.1.trans hn1, ?_⟩
                  have := hb2.2
                  rw [hpe, hn1] at this
                  exact this
                · intro hsup
                  exact suppEq_trans (hsup1 hsup) (hs2 (by rw [hn1]; exact hsup))
            | pendingRes =>
                cases hbody
                exact ⟨⟨hn1, hple⟩, hsup1⟩
  cases arg with
  | domEvent => exact main h
  | internalKey => exact main h
  | payloadObj d => cases h
  | undef => cases h

theorem settleF_good {P : Program} {p : Fns} (hp : GoodFns P p) :
    ∀ pd res s s',
      settleF P p pd res s = .ok s' →
      PatchLe s s' ∧ (1 ≤ s.noRender → SuppEq s s') := by
  intro pd res s s' h
  unfold settleF at h
  cases hcfg : P.defs.get? pd.compRef with
  | none => rw [hcfg] at h; cases h
  | some cfg =>
      rw [hcfg] at h
      dsimp only at h
      cases htk : alookup cfg.tasks pd.tname with
      | none => rw [htk] at h; cases h
      | some th =>
          rw [htk] at h
          dsimp only at h
          cases res with
          | resolved v =>
              refine dispatch_tail hp ?_ ?_ h
              · exact suppCore_set_taskLog _ _
              · rfl
          | rejected e =>
              refine dispatch_tail hp ?_ ?_ h
              · exact suppCore_set_taskLog _ _
              · rfl

theorem renderChildF_good {P : Program} {p : Fns} (hp : GoodFns P p) :
    ∀ c i pr s s' v,
      renderChildF p c i pr s = .ok (s', v) → RenderPres s s' := by
  intro c i pr s s' v h
  unfold renderChildF at h
  by_cases hlen : (stripHash i).length = 0
  · rw [if_pos hlen] at h; cases h
  · rw [if_neg hlen] at h
    cases hinst : s.getInst (stripHash i) with
    | some ex =>
        rw [hinst] at h
        dsimp only at h
        by_cases hdup : s.noRender = 0 ∧ ex.inCurrentRender = true
        · rw [if_pos hdup] at h; cases h
        · rw [if_neg hdup] at h
          have hrc := hp.renderComponent _ _ _ _ _ _ h
          refine renderPres_trans ?_ hrc
          exact ⟨rfl, rfl, rfl⟩
    | none =>
        rw [hinst] at h
        exact hp.renderComponent _ _ _ _ _ _ h

theorem renderInitF_pres {P : Program} {p : Fns} (hp : GoodFns P p)
    (cfg : CompDef) (id : String) :
    ∀ s s', renderInitF p cfg id s = .ok s' → RenderPres s s' := by
  intro s s' h
  unfold renderInitF at h
  cases hii : cfg.init with
  | none => rw [hii] at h; cases h; exact renderPres_refl _
  | some nxt =>
      rw [hii] at h
      simp only [bind, Except.bind] at h
      cases hrn : p.runNext id (some nxt) { s with noRender := s.noRender + 1 } with
      | error e => rw [hrn] at h; cases h
      | ok si₂ =>
          rw [hrn] at h
          dsimp only [pure, Except.pure] at h
          cases h
          have hsup := (hp.runNext _ _ _ _ hrn).2
            (by show 1 ≤ s.noRender + 1; omega)
          refine ⟨?_, hsup.2.1, hsup.2.2.2.1⟩
          have : si₂.noRender = s.noRender + 1 := hsup.1
          show si₂.noRender - 1 = s.noRender
          omega

theorem renderFreshViewF_pres {P : Program} {p : Fns} (hp : GoodFns P p)
    (cfg : CompDef) (id : String) (props : Option Nat) :
    ∀ s s' v, renderFreshViewF p cfg id props s = .ok (s', v) →
      RenderPres s s' := by
  intro s s' v h
  unfold renderFreshViewF at h
  cases hinst : s.getInst id with
  | none => rw [hinst] at h; cases h
  | some i2 =>
      rw [hinst] at h
      dsimp only at h
      obtain ⟨pr, hk, h⟩ := engine_bind_ok h
      obtain ⟨s₅, kids⟩ := pr
      dsimp only at h
      cases h
      have hkp := renderKids_pres p.renderChild
        (fun c i pr a b vv hab => hp.renderChild c i pr a b vv hab) _ _ _ _ hk
      exact ⟨hkp.1, hkp.2.1, hkp.2.2⟩

theorem renderComponentF_good {P : Program} {p : Fns} (hp : GoodFns P p) :
    ∀ c id pr s s' v,
      renderComponentF P p c id pr s = .ok (s', v) → RenderPres s s' := by
  intro c id pr s s' v h
  unfold renderComponentF at h
  dsimp only at h
  cases hinst : s.getInst id with
  | some existing =>
      rw [hinst] at h
      dsimp only at h
      cases hpc : existing.props != pr with
      | false =>
          rw [hpc] at h
          rw [if_neg (by simp)] at h
          cases h
          exact ⟨rfl, rfl, rfl⟩
      | true =>
          rw [hpc] at h
          rw [if_pos rfl] at h
          cases hcfg : P.defs.get? existing.compRef with
          | none => rw [hcfg] at h; cases h
          | some cfg =>
              rw [hcfg] at h
              dsimp only at h
              obtain ⟨pr2, hk, h⟩ := engine_bind_ok h
              obtain ⟨s₃, kids⟩ := pr2
              dsimp only at h
              cases h
              have hkp := renderKids_pres p.renderChild
                (fun cc ii pp a b vv hab => hp.renderChild cc ii pp a b vv hab)
                _ _ _ _ hk
              exact ⟨hkp.1, hkp.2.1, hkp.2.2⟩
  | none =>
      rw [hinst] at h
      dsimp only at h
      cases hcfg : P.defs.get? c with
      | none => rw [hcfg] at h; cases h
      | some cfg =>
          rw [hcfg] at h
          dsimp only at h
          obtain ⟨s₂, hi, h⟩ := engine_bind_ok h
          have hip := renderInitF_pres hp cfg id _ _ hi
          by_cases hroot : id = "app"
          · rw [if_pos hroot] at h
            have hfp := renderFreshViewF_pres hp cfg id pr _ _ _ h
            refine renderPres_trans (renderPres_trans hip ?_) hfp
            exact ⟨rfl, rfl, rfl⟩
          · rw [if_neg hroot] at h
            have hfp := renderFreshViewF_pres hp cfg id pr _ _ _ h
            exact renderPres_trans hip hfp

theorem patch_branch_fields (sx : Engine) (pv vn : VNodeT) (iid : String)
    (F : Instance → Instance) :
    ((clearRenderFlags { doPatch sx pv vn with
        patchCount := (doPatch sx pv vn).patchCount + 1,
        stateChanged := false, renderRootId := none }).updInst iid F).noRender
      = sx.noRender ∧
    ((clearRenderFlags { doPatch sx pv vn with
        patchCount := (doPatch sx pv vn).patchCount + 1,
        stateChanged := false, renderRootId := none }).updInst iid F).patchCount
      = sx.patchCount + 1 := by
  have hd := doPatch_fields sx pv vn
  constructor
  · show (doPatch sx pv vn).noRender = sx.noRender
    exact hd.1
  · show (doPatch sx pv vn).patchCount + 1 = sx.patchCount + 1
    rw [hd.2.1]

theorem renderCIF_good {P : Program} {p : Fns} (hp : GoodFns P p) :
    ∀ iid s s' v, renderCIF P p iid s = .ok (s', v) →
      PatchLe s s' ∧ (1 ≤ s.noRender → SuppEq s s') := by
  intro iid s s' v h
  unfold renderCIF at h
  cases hinst : s.getInst iid with
  | none =>
      rw [hinst] at h
      dsimp only at h
      cases h
      exact ⟨patchLe_refl _, fun _ => suppEq_refl _⟩
  | some inst =>
      rw [hinst] at h
      dsimp only at h
      by_cases h0 : s.noRender = 0
      · rw [if_pos h0] at h
        have hsupx : (1 ≤ s.noRender → SuppEq s s') :=
          fun hsup => absurd h0 (by omega)
        by_cases hrsc : s.rootStateChanged = true
        · rw [if_pos hrsc] at h
          cases happ : s.getInst "app" with
          | some ai =>
              rw [happ] at h
              dsimp only at h
              have hb := (hp.renderCI _ _ _ _ h).1
              exact ⟨patchLe_comp_pre hb rfl rfl, hsupx⟩
          | none =>
              rw [happ] at h
              dsimp only at h
              cases h
              refine ⟨⟨rfl, ?_⟩, hsupx⟩
              show s.patchCount ≤ s.patchCount + _
              split <;> omega
        · rw [if_neg hrsc] at h
          by_cases hsc : s.stateChanged = true
          · rw [if_pos hsc] at h
            cases hcfg : P.defs.get? inst.compRef with
            | none => rw [hcfg] at h; cases h
            | some cfg =>
                rw [hcfg] at h
                dsimp only at h
                cases hrr : s.renderRootId.isNone
                · rw [hrr] at h
                  rw [if_neg (by simp)] at h
                  obtain ⟨pr2, hk, h⟩ := engine_bind_ok h
                  obtain ⟨s₂, kids⟩ := pr2
                  dsimp only at h
                  cases h
                  have hkp := renderKids_pres p.renderChild
                    (fun cc ii pp a b vv hab => hp.renderChild cc ii pp a b vv hab)
                    _ _ _ _ hk
                  refine ⟨⟨hkp.1, ?_⟩, hsupx⟩
                  show s₂.patchCount ≤ s.patchCount + _
                  rw [hkp.2.1]
                  split <;> omega
                · rw [hrr] at h
                  rw [if_pos rfl] at h
                  obtain ⟨pr2, hk, h⟩ := engine_bind_ok h
                  obtain ⟨s₂, kids⟩ := pr2
                  dsimp only at h
                  have hkp := renderKids_pres p.renderChild
                    (fun cc ii pp a b vv hab => hp.renderChild cc ii pp a b vv hab)
                    _ _ _ _ hk
                  cases hpv : inst.vnode with
                  | none =>
                      rw [hpv] at h
                      dsimp only at h
                      cases h
                      refine ⟨⟨hkp.1.trans rfl, ?_⟩, hsupx⟩
                      show s₂.patchCount ≤ s.patchCount + _
                      rw [hkp.2.1]
                      show s.patchCount ≤ s.patchCount + _
                      split <;> omega
                  | some pv =>
                      rw [hpv] at h
                      dsimp only at h
                      cases h
                      have hpb := patch_branch_fields
                        { s₂.updInst iid (fun i => { i with vnode := some (VNodeT.node iid kids) }) with
                          viewLog := (s₂.updInst iid (fun i => { i with vnode := some (VNodeT.node iid kids) })).viewLog ++ [iid] }
                        pv (VNodeT.node iid kids) iid
                        (fun i => { i with prevProps := i.props })
                      refine ⟨⟨?_, ?_⟩, hsupx⟩
                      · rw [hpb.1]
                        show s₂.noRender = s.noRender
                        rw [hkp.1]
                      · rw [hpb.2]
                        show s₂.patchCount + 1 ≤ s.patchCount + _
                        rw [hkp.2.1]
                        rw [if_pos h0]
          · rw [if_neg hsc] at h
            cases h
            refine ⟨⟨rfl, ?_⟩, hsupx⟩
            show s.patchCount ≤ s.patchCount + _
            split <;> omega
      · rw [if_neg h0] at h
        cases h
        constructor
        · refine ⟨rfl, ?_⟩
          show s.patchCount ≤ s.patchCount + _
          split <;> omega
        · intro _
          exact ⟨rfl, suppCore_updInst_prevProps s iid⟩

theorem goodFns_errFns (P : Program) : GoodFns P errFns := by
  refine ⟨?_, ?_, ?_, ?_, ?_, ?_, ?_, ?_, ?_⟩ <;>
    (intros; rename_i h; cases h)

/-- The joint invariant holds at every fuel level: each engine step makes
at most one patch (none while the nesting counter is positive, where it
also leaves the render bookkeeping untouched), and rendering a subtree
never patches. -/
theorem goodFns_mkFns (P : Program) : ∀ fuel, GoodFns P (mkFns P fuel) := by
  intro fuel
  induction fuel with
  | zero => exact goodFns_errFns P
  | succ n ih =>
      exact ⟨invokeActionF_good ih, invokeTaskF_good ih, executeActionF_good ih,
        performTaskF_good ih, runNextF_good ih, renderCIF_good ih,
        renderChildF_good ih, renderComponentF_good ih, settleF_good ih⟩

/-! ## Projections of `SuppEq` and shape transfer -/

theorem suppEq_noRender {s s' : Engine} (h : SuppEq s s') : s'.noRender = s.noRender := h.1

theorem suppEq_patch {s s' : Engine} (h : SuppEq s s') : s'.patchCount = s.patchCount := h.2.1

theorem suppEq_viewLog {s s' : Engine} (h : SuppEq s s') : s'.viewLog = s.viewLog := h.2.2.1

theorem suppEq_renderRootId {s s' : Engine} (h : SuppEq s s') :
    s'.renderRootId = s.renderRootId := h.2.2.2.1

theorem suppEq_mono {s s' : Engine} (h : SuppEq s s') :
    s.stateChanged = true → s'.stateChanged = true := h.2.2.2.2.2.2.2.2.1

theorem suppEq_regShape {s s' : Engine} (h : SuppEq s s') : RegShape s s' :=
  h.2.2.2.2.2.2.2.2.2

theorem suppCore_regShape {s s' : Engine} (h : SuppCore s s') : RegShape s s' :=
  h.2.2.2.2.2.2.2.2

theorem oShape_some {a : Instance} {o : Option Instance} (h : OShape (some a) o) :
    ∃ b, o = some b ∧ InstShape a b := by
  cases o with
  | none => cases h
  | some b => exact ⟨b, rfl, h⟩

theorem simpleActionElem_shape {P : Program} {s s' : Engine} {t : ThunkRefV}
    (hel : SimpleActionElem P s t) (hsh : RegShape s s') :
    SimpleActionElem P s' t := by
  cases t with
  | task c n d => exact hel.elim
  | action c n d =>
      obtain ⟨inst, hinst, cfg, hcfg, hnd, hact, hprops⟩ := hel
      have := hsh c
      rw [hinst] at this
      obtain ⟨b, hb, hbs⟩ := oShape_some this
      exact ⟨b, hb, cfg, hbs.2.1 ▸ hcfg, hnd, hact, hprops⟩

/-- A single element of the array: an always-state-updating action with
no continuation leaves the engine suppressed-equal and with
`stateChanged` set. -/
theorem simple_elem_step {P : Program} {fuel : Nat} {s s' : Engine} {t : ThunkRefV}
    (hel : SimpleActionElem P s t) (hnr : 1 ≤ s.noRender)
    (h : invokeThunkVia (mkFns P (fuel + 1)) t s = .ok s') :
    s'.stateChanged = true := by
  cases t with
  | task c n d => exact hel.elim
  | action c n d =>
      obtain ⟨inst, hinst, cfg, hcfg, hnd, hact, hprops⟩ := hel
      unfold invokeThunkVia at h
      dsimp only at h
      rw [mkFns_invokeAction] at h
      unfold invokeActionF at h
      dsimp only at h
      rw [hinst] at h
      dsimp only at h
      cases fuel with
      | zero => cases h
      | succ f2 =>
          rw [mkFns_executeAction] at h
          unfold executeActionF at h
          rw [hinst] at h
          dsimp only at h
          rw [hcfg] at h
          dsimp only at h
          rw [hact] at h
          dsimp only at h
          rw [(hprops c d _).1] at h
          cases f2 with
          | zero => cases h
          | succ f3 =>
              have hgood := (goodFns_mkFns P (f3 + 1)).runNext _ _ _ _ h
              have hsupp := hgood.2 (by split <;> exact hnr)
              apply suppEq_mono hsupp
              have hbne : ((hnd c d
                  { props := inst.props, state := inst.state,
                    rootState := s.rootState, event := false }).state != inst.state)
                  = true := by
                rw [bne_iff_ne]
                exact (hprops c d _).2
              split <;> (dsimp only [Engine.updInst]; rw [hbne]; simp)

/-- The whole array expansion: given a first element that updates state,
the loop is suppressed-equal to its start and ends with `stateChanged`. -/
theorem batch_loop {P : Program} {fuel : Nat} {t : ThunkRefV} {rest : List ThunkRefV}
    {s s₂ : Engine}
    (h : runThunkList (invokeThunkVia (mkFns P (fuel + 1))) (t :: rest) s = .ok s₂)
    (hnr : 1 ≤ s.noRender) (hel : SimpleActionElem P s t) :
    SuppEq s s₂ ∧ s₂.stateChanged = true := by
  simp only [runThunkList, bind, Except.bind] at h
  cases hh : invokeThunkVia (mkFns P (fuel + 1)) t s with
  | error e => rw [hh] at h; cases h
  | ok s₁ =>
      rw [hh] at h
      have hsc1 := simple_elem_step hel hnr hh
      have hsupp1 := (invokeThunkVia_good (goodFns_mkFns P (fuel + 1)) _ _ _ hh).2 hnr
      have hnr1 : 1 ≤ s₁.noRender := by rw [suppEq_noRender hsupp1]; exact hnr
      have hsupp2 := runThunkList_supp _
        (fun tt a b hab hn => (invokeThunkVia_good (goodFns_mkFns P (fuel + 1)) tt a b hab).2 hn)
        rest _ _ h hnr1
      exact ⟨suppEq_trans hsupp1 hsupp2, suppEq_mono hsupp2 hsc1⟩

/-- A render pass at nesting level zero with `stateChanged` set, no
`rootStateChanged`, an unclaimed render root and a previously rendered
pass-root instance performs exactly one patch. -/
theorem renderPass_app {P : Program} {f : Nat} {s : Engine} {iid : String}
    {inst : Instance} {cfg : CompDef} {pv : VNodeT}
    (h0 : s.noRender = 0) (hrc : s.rootStateChanged = false)
    (hsc : s.stateChanged = true) (hrr : s.renderRootId = none)
    (hinst : s.getInst iid = some inst) (hvn : inst.vnode = some pv)
    (hcfg : P.defs.get? inst.compRef = some cfg) :
    ∀ s' v, (mkFns P (f + 1)).renderCI iid s = .ok (s', v) →
      s'.patchCount = s.patchCount + 1 := by
  intro s' v h
  rw [mkFns_renderCI] at h
  unfold renderCIF at h
  rw [hinst] at h
  dsimp only at h
  rw [if_pos h0] at h
  rw [hrc] at h
  rw [if_neg (by simp)] at h
  rw [hsc] at h
  rw [if_pos rfl] at h
  rw [hrr] at h
  dsimp only [Option.isNone] at h
  rw [if_pos rfl] at h
  rw [hcfg] at h
  dsimp only at h
  obtain ⟨pr2, hk, h⟩ := engine_bind_ok h
  obtain ⟨s₂, kids⟩ := pr2
  dsimp only at h
  rw [hvn] at h
  dsimp only at h
  cases h
  have hkp := renderKids_pres _
    (fun cc ii pp a b vv hab => (goodFns_mkFns P f).renderChild cc ii pp a b vv hab)
    _ _ _ _ hk
  dsimp only [clearRenderFlags, Engine.updInst]
  rw [doPatch_patchCount]
  show s₂.patchCount + 1 = s.patchCount + 1
  rw [hkp.2.1]

/-- The unit of work after the root handler returned an array: expanding
the array under the nesting counter and then rendering performs exactly
one patch. -/
theorem c1_tail {P : Program} {f₂ : Nat} {sA s s' : Engine} {t : ThunkRefV}
    {rest : List ThunkRefV} {rootInst : Instance} {cfgR : CompDef} {pv : VNodeT}
    (hcore : SuppCore s sA) (hnA : sA.noRender = s.noRender)
    (h0 : s.noRender = 0) (hrr : s.renderRootId = none)
    (hinstR : s.getInst "app" = some rootInst) (hvn : rootInst.vnode = some pv)
    (hcfgR : P.defs.get? rootInst.compRef = some cfgR)
    (hel : SimpleActionElem P s t)
    (h : (mkFns P f₂).runNext "app" (some (.list (t :: rest))) sA = .ok s') :
    s'.patchCount = s.patchCount + 1 := by
  cases f₂ with
  | zero => cases h
  | succ f₃ =>
      rw [mkFns_runNext] at h
      unfold runNextF at h
      obtain ⟨s₂, hloop, h⟩ := engine_bind_ok h
      dsimp only at h
      obtain ⟨pr, hfin, h⟩ := engine_bind_ok h
      obtain ⟨s₄, vv⟩ := pr
      dsimp only at h
      cases h
      cases f₃ with
      | zero =>
          cases t <;>
            simp [runThunkList, invokeThunkVia, mkFns, errFns, bind, Except.bind] at hloop
      | succ f₄ =>
          have helA : SimpleActionElem P { sA with noRender := sA.noRender + 1 } t :=
            simpleActionElem_shape hel
              (regShape_trans (suppCore_regShape hcore) (regShape_of_registry_eq rfl))
          obtain ⟨hsuppL, hscL⟩ := batch_loop hloop
            (by show 1 ≤ sA.noRender + 1; omega) helA
          have hns₂ : s₂.noRender = s.noRender + 1 := by
            have := suppEq_noRender hsuppL
            rw [this]
            show sA.noRender + 1 = s.noRender + 1
            rw [hnA]
          have hps₂ : s₂.patchCount = s.patchCount := by
            have := suppEq_patch hsuppL
            rw [this]
            show sA.patchCount = s.patchCount
            exact hcore.1
          have hrr₂ : s₂.renderRootId = none := by
            have := suppEq_renderRootId hsuppL
            rw [this]
            show sA.renderRootId = none
            rw [hcore.2.2.1, hrr]
          have hstep : RegShape sA { sA with noRender := sA.noRender + 1 } :=
            regShape_of_registry_eq rfl
          have hshape : RegShape s s₂ :=
            regShape_trans (suppCore_regShape hcore)
              (regShape_trans hstep (suppEq_regShape hsuppL))
          have happ := hshape "app"
          rw [hinstR] at happ
          obtain ⟨b, hb, hbs⟩ := oShape_some happ
          have hb3 : Engine.getInst { s₂ with noRender := s₂.noRender - 1 } "app" = some b := hb
          have hvnb : b.vnode = some pv := by rw [← hbs.2.2.2.2.1, hvn]
          have hcfgb : P.defs.get? b.compRef = some cfgR := by rw [← hbs.2.1]; exact hcfgR
          have h0' : ({ s₂ with noRender := s₂.noRender - 1 } : Engine).noRender = 0 := by
            show s₂.noRender - 1 = 0
            omega
          have hsc' : ({ s₂ with noRender := s₂.noRender - 1 } : Engine).stateChanged = true := hscL
          have hrr' : ({ s₂ with noRender := s₂.noRender - 1 } : Engine).renderRootId = none := hrr₂
      -- the final render: one patch, whether or not `rootStateChanged` was set
          cases hrsc3 : ({ s₂ with noRender := s₂.noRender - 1 } : Engine).rootStateChanged with
          | false =>
              have := renderPass_app h0' hrsc3 hsc' hrr' hb3 hvnb hcfgb s' vv hfin
              rw [this]
              show s₂.patchCount + 1 = s.patchCount + 1
              rw [hps₂]
          | true =>
              rw [mkFns_renderCI] at hfin
              unfold renderCIF at hfin
              rw [hb3] at hfin
              dsimp only at hfin
              rw [if_pos h0'] at hfin
              rw [hrsc3] at hfin
              rw [if_pos rfl] at hfin
              cases f₄ with
              | zero => cases hfin
              | succ f₅ =>
                  have h0x : ({ { s₂ with noRender := s₂.noRender - 1 } with
                      rootStateChanged := false } : Engine).noRender = 0 := h0'
                  have hscx : ({ { s₂ with noRender := s₂.noRender - 1 } with
                      rootStateChanged := false } : Engine).stateChanged = true := hscL
                  have hrrx : ({ { s₂ with noRender := s₂.noRender - 1 } with
                      rootStateChanged := false } : Engine).renderRootId = none := hrr₂
                  have hbx : Engine.getInst ({ { s₂ with noRender := s₂.noRender - 1 } with
                      rootStateChanged := false } : Engine) "app" = some b := hb
                  have := renderPass_app h0x rfl hscx hrrx hbx hvnb hcfgb s' vv hfin
                  rw [this]
                  show s₂.patchCount + 1 = s.patchCount + 1
                  rw [hps₂]

theorem inc_state_ne (ctx : Ctx) : some (ctx.state.getD 0 + 1) ≠ ctx.state := by
  cases ctx.state with
  | none => simp
  | some n => simp

/-- C1: for an externally triggered root action whose handler returns an
array of continuation thunks, each an action updating its instance's
state once (fresh reference, no further continuation), the whole unit of
work makes exactly one patch.  The nesting counter is incremented before
expanding the array and decremented after (definition of `runNextF`),
and while it is non-zero no patch occurs and no view runs (first
conjunct). -/
theorem c1_array_batch_single_patch
    (P : Program) (fuel : Nat) (s : Engine) (aname : String) (data : Option Json)
    (rootInst : Instance) (cfgR : CompDef) (pv : VNodeT)
    (hR : String → Option Json → Ctx → HandlerOut)
    (t : ThunkRefV) (rest : List ThunkRefV)
    (hq1 : s.noRender = 0) (_hq2 : s.stateChanged = false)
    (hq4 : s.renderRootId = none)
    (hinstR : s.getInst "app" = some rootInst)
    (hvn : rootInst.vnode = some pv)
    (hcfgR : P.defs.get? rootInst.compRef = some cfgR)
    (hactR : alookup cfgR.actions aname = some hR)
    (hnextR : (hR "app" data
      { props := rootInst.props, state := rootInst.state,
        rootState := s.rootState, event := false }).next = some (.list (t :: rest)))
    (hel : SimpleActionElem P s t)
    (_helrest : ∀ t' ∈ rest, SimpleActionElem P s t') :
    (∀ st st' vv iid, 1 ≤ st.noRender →
        (mkFns P fuel).renderCI iid st = .ok (st', vv) →
        st'.patchCount = st.patchCount ∧ st'.viewLog = st.viewLog) ∧
    (∀ s', (mkFns P fuel).invokeAction "app" aname data .internalKey s = .ok s' →
        s'.patchCount = s.patchCount + 1) := by
  constructor
  · intro st st' vv iid hn h
    cases fuel with
    | zero => cases h
    | succ f =>
        have := ((goodFns_mkFns P (f + 1)).renderCI _ _ _ _ h).2 hn
        exact ⟨suppEq_patch this, suppEq_viewLog this⟩
  · intro s' h
    cases fuel with
    | zero => cases h
    | succ f =>
        rw [mkFns_invokeAction] at h
        unfold invokeActionF at h
        rw [hinstR] at h
        cases f with
        | zero => cases h
        | succ f₂ =>
            rw [mkFns_executeAction] at h
            unfold executeActionF at h
            rw [hinstR] at h
            dsimp only at h
            rw [hcfgR] at h
            dsimp only at h
            rw [hactR] at h
            dsimp only at h
            rw [hnextR] at h
            cases hris : rootInst.isRoot
            · rw [hris] at h
              rw [if_neg (by simp)] at h
              refine c1_tail ?_ ?_ hq1 hq4 hinstR hvn hcfgR hel h
              · exact suppCore_trans (suppCore_updInst_state s "app" _)
                  (suppCore_set_stateChanged_or _ _)
              · rfl
            · rw [hris] at h
              rw [if_pos rfl] at h
              refine c1_tail ?_ ?_ hq1 hq4 hinstR hvn hcfgR hel h
              · exact suppCore_trans
                  (suppCore_trans (suppCore_updInst_state s "app" _)
                    (suppCore_set_stateChanged_or _ _))
                  (suppCore_set_root _ _ _)
              · rfl

/-- Witness for C1: dispatching `Batch` (an array of two state-updating
root actions) on the mounted two-component program performs exactly one
patch. -/
theorem c1_witness :
    (runOr ((mkFns wP 20).invokeAction "app" "Batch" none .internalKey wS)).patchCount
      = wS.patchCount + 1 := by
  have helInc : SimpleActionElem wP wS (.action "app" "Inc2" none) :=
    ⟨wAppInst, by rfl, rootC, rfl, incHandler, rfl,
     fun _ _ ctx => ⟨rfl, inc_state_ne ctx⟩⟩
  refine (c1_array_batch_single_patch wP 20 wS "Batch" none
    wAppInst rootC (VNodeT.node "app" [VNodeT.node "child" []]) batchHandler
    (.action "app" "Inc2" none) [.action "app" "Inc2" none]
    (by rfl) (by rfl) (by rfl) (by rfl) rfl rfl rfl rfl helInc ?_).2 _ (by rfl)
  intro t' ht'
  rw [List.mem_singleton] at ht'
  subst ht'
  exact helInc

/-! ## C2: thunk memoization -/

theorem createActionThunkM_idem (s : Engine) (id name : String) (p : Option Json) :
    createActionThunkM (createActionThunkM s id name p).1 id name p
      = createActionThunkM s id name p := by
  cases h₁ : alookup s.actionCache (createCacheKey id name p) with
  | some c => simp [createActionThunkM, h₁]
  | none => simp [createActionThunkM, h₁, alookup_append, alookup]

theorem createTaskThunkM_idem (s : Engine) (id name : String) (p : Option Json) :
    createTaskThunkM (createTaskThunkM s id name p).1 id name p
      = createTaskThunkM s id name p := by
  cases h₁ : alookup s.taskCache (createCacheKey id name p) with
  | some c => simp [createTaskThunkM, h₁]
  | none => simp [createTaskThunkM, h₁, alookup_append, alookup]

theorem createActionThunkM_distinct (s : Engine) (id₁ name₁ id₂ name₂ : String)
    (p q : Option Json) (hwf : CachesWF s)
    (hk : createCacheKey id₁ name₁ p ≠ createCacheKey id₂ name₂ q) :
    (createActionThunkM (createActionThunkM s id₁ name₁ p).1 id₂ name₂ q).2
      ≠ (createActionThunkM s id₁ name₁ p).2 := by
  obtain ⟨hWa, hWt, hDa, hDt⟩ := hwf
  cases h₁ : alookup s.actionCache (createCacheKey id₁ name₁ p) with
  | some c =>
      cases h₂ : alookup s.actionCache (createCacheKey id₂ name₂ q) with
      | some c' =>
          simp only [createActionThunkM, h₁, h₂]
          exact hDa _ (alookup_mem h₂) _ (alookup_mem h₁) (fun he => hk he.symm)
      | none =>
          simp only [createActionThunkM, h₁, h₂]
          exact Nat.ne_of_gt (hWa _ (alookup_mem h₁))
  | none =>
      cases h₂ : alookup s.actionCache (createCacheKey id₂ name₂ q) with
      | some c' =>
          simp only [createActionThunkM, h₁, alookup_append, h₂, Option.elim]
          exact Nat.ne_of_lt (hWa _ (alookup_mem h₂))
      | none =>
          simp only [createActionThunkM, h₁, alookup_append, h₂, Option.elim, alookup]
          rw [if_neg hk]
          exact Nat.succ_ne_self _

theorem createTaskThunkM_distinct (s : Engine) (id₁ name₁ id₂ name₂ : String)
    (p q : Option Json) (hwf : CachesWF s)
    (hk : createCacheKey id₁ name₁ p ≠ createCacheKey id₂ name₂ q) :
    (createTaskThunkM (createTaskThunkM s id₁ name₁ p).1 id₂ name₂ q).2
      ≠ (createTaskThunkM s id₁ name₁ p).2 := by
  obtain ⟨hWa, hWt, hDa, hDt⟩ := hwf
  cases h₁ : alookup s.taskCache (createCacheKey id₁ name₁ p) with
  | some c =>
      cases h₂ : alookup s.taskCache (createCacheKey id₂ name₂ q) with
      | some c' =>
          simp only [createTaskThunkM, h₁, h₂]
          exact hDt _ (alookup_mem h₂) _ (alookup_mem h₁) (fun he => hk he.symm)
      | none =>
          simp only [createTaskThunkM, h₁, h₂]
          exact Nat.ne_of_gt (hWt _ (alookup_mem h₁))
  | none =>
      cases h₂ : alookup s.taskCache (createCacheKey id₂ name₂ q) with
      | some c' =>
          simp only [createTaskThunkM, h₁, alookup_append, h₂, Option.elim]
          exact Nat.ne_of_lt (hWt _ (alookup_mem h₂))
      | none =>
          simp only [createTaskThunkM, h₁, alookup_append, h₂, Option.elim, alookup]
          rw [if_neg hk]
          exact Nat.succ_ne_self _

/-- C2.  Structural-key memoization of the thunk factories: calling the
action-thunk (resp. task-thunk) factory twice with the identical
`(instanceId, name, payload)` triple returns the same thunk reference and
leaves the engine unchanged; and under cache well-formedness, two calls
whose `(id, name, serialized payload)` cache keys differ return distinct
references.  The spec's stronger reading — a *different payload value*
always yields a different reference — is refuted by
`c2_null_undefined_payload_collision`: `null` and `undefined` payloads
serialize to the same cache key. -/
theorem c2_thunk_memoization :
    (∀ (s : Engine) (id name : String) (p : Option Json),
       createActionThunkM (createActionThunkM s id name p).1 id name p
         = createActionThunkM s id name p) ∧
    (∀ (s : Engine) (id name : String) (p : Option Json),
       createTaskThunkM (createTaskThunkM s id name p).1 id name p
         = createTaskThunkM s id name p) ∧
    (∀ (s : Engine) (id₁ name₁ id₂ name₂ : String) (p q : Option Json),
       CachesWF s →
       createCacheKey id₁ name₁ p ≠ createCacheKey id₂ name₂ q →
       (createActionThunkM (createActionThunkM s id₁ name₁ p).1 id₂ name₂ q).2
         ≠ (createActionThunkM s id₁ name₁ p).2) ∧
    (∀ (s : Engine) (id₁ name₁ id₂ name₂ : String) (p q : Option Json),
       CachesWF s →
       createCacheKey id₁ name₁ p ≠ createCacheKey id₂ name₂ q →
       (createTaskThunkM (createTaskThunkM s id₁ name₁ p).1 id₂ name₂ q).2
         ≠ (createTaskThunkM s id₁ name₁ p).2) :=
  ⟨createActionThunkM_idem, createTaskThunkM_idem,
   fun s i₁ n₁ i₂ n₂ p q hwf hk => createActionThunkM_distinct s i₁ n₁ i₂ n₂ p q hwf hk,
   fun s i₁ n₁ i₂ n₂ p q hwf hk => createTaskThunkM_distinct s i₁ n₁ i₂ n₂ p q hwf hk⟩

/-- Witness for C2 at concrete inputs: on the empty engine, requesting the
thunk for `("app", "Inc", undefined)` and then for `("app", "Dec",
undefined)` yields distinct references. -/
theorem c2_thunk_memoization_witness :
    (createActionThunkM (createActionThunkM emptyEngine "app" "Inc" none).1 "app" "Dec" none).2
      ≠ (createActionThunkM emptyEngine "app" "Inc" none).2 :=
  c2_thunk_memoization.2.2.1 emptyEngine "app" "Inc" "app" "Dec" none none
    (by refine ⟨?_, ?_, ?_, ?_⟩ <;> intro e he <;> simp [emptyEngine] at he)
    (by decide)

/-- Counterexample to C2 as written: the payloads `undefined` (`none`)
and `null` (`some .jnull`) are different payloads, yet the factory
returns the *same* thunk reference for both, because `createCacheKey`
serializes both to the empty data key. -/
theorem c2_null_undefined_payload_collision :
    (none : Option Json) ≠ some Json.jnull ∧
    (createActionThunkM (createActionThunkM emptyEngine "app" "Inc" none).1
        "app" "Inc" (some Json.jnull)).2
      = (createActionThunkM emptyEngine "app" "Inc" none).2 :=
  ⟨fun h => Option.noConfusion h, rfl⟩

/-! ## C3: render-pass scope -/

/-- C3.  Render-pass scope, amended: (i) when only the non-root child's
local state changes, the pass renders the child alone — the root's and
siblings' views are not invoked (the view log grows by `["child"]`
only); (ii) when the root's state changes, the view of a live child is
re-invoked *only if its props reference changed*: with a fresh props
reference per render (`wPF`), the pass re-invokes both views (the child
logs during the root's view evaluation, then the root logs), but with an
unchanged props reference the child is skipped
(`c3_live_child_view_skipped`), refuting the claim's universal "every
live instance" reading. -/
theorem c3_render_pass_scope :
    ((runOr ((mkFns wP 20).invokeAction "child" "Inc" none .internalKey wS)).viewLog
       = wS.viewLog ++ ["child"]) ∧
    ((runOr ((mkFns wPF 20).invokeAction "app" "SetTheme" none .internalKey wSF)).viewLog
       = wSF.viewLog ++ ["child", "app"]) ∧
    (wS.getInst "app").isSome = true ∧ (wS.getInst "child").isSome = true :=
  ⟨rfl, rfl, rfl, rfl⟩

/-- Counterexample to C3 as written: dispatching `SetTheme` on the
mounted two-component program changes the root state and the child
instance is live, yet the pass invokes only the root's view — the
child's props reference (`undefined` both times) is unchanged, so its
view is skipped. -/
theorem c3_live_child_view_skipped :
    (wS.getInst "child").isSome = true ∧
    (runOr ((mkFns wP 20).invokeAction "app" "SetTheme" none .internalKey wS)).rootState
      ≠ wS.rootState ∧
    (runOr ((mkFns wP 20).invokeAction "app" "SetTheme" none .internalKey wS)).viewLog
      = wS.viewLog ++ ["app"] :=
  ⟨rfl, by decide, rfl⟩

/-! ## C4: no currying branch -/

/-- C4.  The code has no currying branch: invoking a memoized action
thunk with a plain payload object — an argument that is neither a host
DOM event nor the engine's private `internalKey` token — does not return
a more-specific thunk; it falls through to `log.manualError`, which
throws the manual-invocation error.  (The repository's own lifecycle
test "should support action currying with cache" expects
`addThunk(\x7b value: 5 \x7d)` to return a curried thunk, so the
implementation diverges from the documented intent.) -/
theorem c4_payload_call_raises_manual_error (P : Program) (fuel : Nat)
    (cid name : String) (data : Option Json) (j : Json) (s : Engine) :
    (mkFns P (fuel + 1)).invokeAction cid name data (.payloadObj j) s
      = .error (.manualInvocation cid name) := rfl

/-! ## C5: synchronous task success -/

/-- C5.  A task whose `perform` returns a non-promise value resolves
within the current batch: (i) in general, `performTask` reports the
success synchronously — it returns an `.immediate` continuation obtained
by applying the task's `success` handler to the returned value and the
instance context, appends `performed`/`succeeded` log entries, and
changes nothing else (in particular it does not suspend the task into the
pending list and does not patch); (ii) in general, a task-thunk
invocation on a quiescent engine performs at most the one patch of its
unit of work; (iii) on the mounted task program, invoking the
value-returning task `Val` runs its success action synchronously —
the state advances, exactly one patch occurs, and nothing is pending. -/
theorem c5_sync_task_resolves_in_batch :
    (∀ (P : Program) (p : Fns) (cid tname : String) (data : Option Json)
       (s : Engine) (inst : Instance) (cfg : CompDef)
       (th : Option Json → TaskDef) (v : Json),
       s.getInst cid = some inst →
       P.defs.get? inst.compRef = some cfg →
       alookup cfg.tasks tname = some th →
       (th data).perform = .value v →
       performTaskF P p cid tname data s =
         .ok ({ s with taskLog :=
                  s.taskLog ++ [.performed tname false, .succeeded cid tname] },
              .immediate (match (th data).success with
                          | some f => f v { props := inst.props, state := inst.state,
                                            rootState := s.rootState, event := false }
                          | none => none))) ∧
    (∀ (P : Program) (fuel : Nat) (cid tname : String) (data : Option Json)
       (s s' : Engine),
       s.noRender = 0 →
       (mkFns P fuel).invokeTask cid tname data .internalKey s = .ok s' →
       s'.patchCount ≤ s.patchCount + 1) ∧
    ((runOr ((mkFns wPT 20).invokeTask "app" "Val" none .internalKey wST)).patchCount
       = wST.patchCount + 1) ∧
    (((runOr ((mkFns wPT 20).invokeTask "app" "Val" none .internalKey wST)).getInst
        "app").bind Instance.state = some 1) ∧
    ((runOr ((mkFns wPT 20).invokeTask "app" "Val" none .internalKey wST)).taskLog
       = wST.taskLog ++ [.performed "Val" false, .succeeded "app" "Val"]) ∧
    ((runOr ((mkFns wPT 20).invokeTask "app" "Val" none .internalKey wST)).pending
       = wST.pending) := by
  refine ⟨?_, ?_, rfl, rfl, rfl, rfl⟩
  · intro P p cid tname data s inst cfg th v h1 h2 h3 hperf
    simp only [performTaskF, h1, h2, h3, hperf]
  · intro P fuel cid tname data s s' hq h
    have hb := ((goodFns_mkFns P fuel).invokeTask cid tname data .internalKey s s' h).1.2
    rw [hq] at hb
    simpa using hb

/-- Witness for C5's general conjuncts at concrete inputs: performing
the value task `Val` of the mounted task program yields the immediate
success continuation, and the bound on patches holds there. -/
theorem c5_sync_task_witness :
    performTaskF wPT (mkFns wPT 19) "app" "Val" none wST =
      .ok ({ wST with taskLog :=
               wST.taskLog ++ [.performed "Val" false, .succeeded "app" "Val"] },
           .immediate (some (.thunk (.action "app" "Apply" none)))) ∧
    (runOr ((mkFns wPT 20).invokeTask "app" "Val" none .internalKey wST)).patchCount
      ≤ wST.patchCount + 1 := by
  constructor
  · exact c5_sync_task_resolves_in_batch.1 wPT (mkFns wPT 19) "app" "Val" none wST
      { id := "app", compRef := 0, state := some 0, props := none, prevProps := none,
        vnode := some (VNodeT.node "app" []), isRoot := true, inCurrentRender := false }
      taskC (fun _ =>
        { perform := .value (.jnum 5),
          success := some (fun _ _ => some (.thunk (.action "app" "Apply" none))),
          failure := some (fun _ _ => none) })
      (.jnum 5) rfl rfl rfl rfl
  · exact c5_sync_task_resolves_in_batch.2.1 wPT 20 "app" "Val" none wST
      (runOr ((mkFns wPT 20).invokeTask "app" "Val" none .internalKey wST)) rfl rfl

/-! ## C6: task failure routing -/

/-- C6.  Task failure is recovered, never propagated: (i) in general, a
task whose `perform` throws synchronously is caught — `performTask`
returns `.ok` (not an exception), appends a `failed` log entry, and
routes the `failure` handler applied to the thrown error value as the
immediate continuation; when no `failure` handler is defined the
continuation is `none`, so the error is swallowed after the log entry;
(ii) in general, a rejected promise settlement is routed identically
through the stored `failure` handler; (iii) on the mounted task program,
invoking the throwing task `Boom` (which has no failure handler) returns
`.ok`, leaves the state and patch count unchanged and records only the
failure log entry. -/
theorem c6_task_failure_routed :
    (∀ (P : Program) (p : Fns) (cid tname : String) (data : Option Json)
       (s : Engine) (inst : Instance) (cfg : CompDef)
       (th : Option Json → TaskDef) (e : Json),
       s.getInst cid = some inst →
       P.defs.get? inst.compRef = some cfg →
       alookup cfg.tasks tname = some th →
       (th data).perform = .throws e →
       performTaskF P p cid tname data s =
         .ok ({ s with taskLog := s.taskLog ++ [.failed cid tname e] },
              .immediate (match (th data).failure with
                          | some f => f e { props := inst.props, state := inst.state,
                                            rootState := s.rootState, event := false }
                          | none => none))) ∧
    (∀ (P : Program) (p : Fns) (pd : Pending) (s : Engine) (cfg : CompDef)
       (th : Option Json → TaskDef) (e : Json),
       P.defs.get? pd.compRef = some cfg →
       alookup cfg.tasks pd.tname = some th →
       settleF P p pd (.rejected e) s =
         p.runNext pd.iid
           (match (th pd.data).failure with
            | some f => f e { props := pd.pprops, state := pd.pstate,
                              rootState := s.rootState, event := false }
            | none => none)
           { s with taskLog := s.taskLog ++ [.failed pd.iid pd.tname e] }) ∧
    ((errOf ((mkFns wPT 20).invokeTask "app" "Boom" none .internalKey wST)).isSome
       = false) ∧
    ((runOr ((mkFns wPT 20).invokeTask "app" "Boom" none .internalKey wST)).patchCount
       = wST.patchCount) ∧
    (((runOr ((mkFns wPT 20).invokeTask "app" "Boom" none .internalKey wST)).getInst
        "app").bind Instance.state = some 0) ∧
    ((runOr ((mkFns wPT 20).invokeTask "app" "Boom" none .internalKey wST)).taskLog
       = wST.taskLog ++ [.failed "app" "Boom" (.jnum 3)]) := by
  refine ⟨?_, ?_, rfl, rfl, rfl, rfl⟩
  · intro P p cid tname data s inst cfg th e h1 h2 h3 hperf
    simp only [performTaskF, h1, h2, h3, hperf]
  · intro P p pd s cfg th e h1 h2
    simp only [settleF, h1, h2]

/-- Witness for C6's general conjuncts: the throwing task `Boom` of the
task program, which has no `failure` handler, performs to an `.ok`
result whose continuation is `none` — the error is swallowed. -/
theorem c6_task_failure_witness :
    performTaskF wPT (mkFns wPT 19) "app" "Boom" none wST =
      .ok ({ wST with taskLog := wST.taskLog ++ [.failed "app" "Boom" (.jnum 3)] },
           .immediate none) :=
  c6_task_failure_routed.1 wPT (mkFns wPT 19) "app" "Boom" none wST
    { id := "app", compRef := 0, state := some 0, props := none, prevProps := none,
      vnode := some (VNodeT.node "app" []), isRoot := true, inCurrentRender := false }
    taskC (fun _ =>
      { perform := .throws (.jnum 3),
        success := some (fun _ _ => some (.thunk (.action "app" "Apply" none))),
        failure := none })
    (.jnum 3) rfl rfl rfl rfl

/-! ## C7: deep freezing -/

theorem mem_freezeOne_self (r : Nat) (F : List Nat) : r ∈ freezeOne r F := by
  unfold freezeOne
  split
  · assumption
  · exact List.mem_cons_self _ _

theorem mem_freezeOne_of {x : Nat} {F : List Nat} (r : Nat) (hx : x ∈ F) :
    x ∈ freezeOne r F := by
  unfold freezeOne
  split
  · exact hx
  · exact List.mem_cons_of_mem _ hx

theorem mem_freezeOne_elim {x r : Nat} {F : List Nat} (h : x ∈ freezeOne r F) :
    x = r ∨ x ∈ F := by
  unfold freezeOne at h
  split at h
  · exact Or.inr h
  · exact List.mem_cons.mp h

theorem newClosed_trans (H : JsHeap) {F G F₁ : List Nat}
    (h1 : NewClosed H F G) (h2 : NewClosed H G F₁)
    (hm : ∀ x ∈ G, x ∈ F₁) : NewClosed H F F₁ := by
  intro x hx
  rcases h2 x hx with hG | hcl
  · rcases h1 x hG with hF | hcl'
    · exact Or.inl hF
    · exact Or.inr (fun c hc => hm c (hcl' c hc))
  · exact Or.inr hcl

theorem freezeKids_spec (H : JsHeap) (rec : Nat → List Nat → Option (List Nat))
    (hrec : ∀ c G G', rec c G = some G' →
       (∀ x ∈ G, x ∈ G') ∧ c ∈ G' ∧ NewClosed H G G') :
    ∀ (cs F₀ F₁ : List Nat),
      freezeKids rec cs F₀ = some F₁ →
      (∀ x ∈ F₀, x ∈ F₁) ∧ (∀ c ∈ cs, c ∈ F₁) ∧ NewClosed H F₀ F₁ := by
  intro cs
  induction cs with
  | nil =>
      intro F₀ F₁ h
      simp only [freezeKids, Option.some.injEq] at h
      subst h
      exact ⟨fun x hx => hx, fun c hc => absurd hc (List.not_mem_nil c),
             fun x hx => Or.inl hx⟩
  | cons c cs ih =>
      intro F₀ F₁ h
      by_cases hc : c ∈ F₀
      · rw [freezeKids, if_pos hc] at h
        obtain ⟨mono, hcs, hnc⟩ := ih F₀ F₁ h
        refine ⟨mono, ?_, hnc⟩
        intro c' hc'
        rcases List.mem_cons.mp hc' with he | hm
        · rw [he]; exact mono c hc
        · exact hcs c' hm
      · rw [freezeKids, if_neg hc] at h
        cases hr : rec c F₀ with
        | none => rw [hr] at h; cases h
        | some F' =>
            rw [hr] at h
            obtain ⟨m1, hcF', nc1⟩ := hrec c F₀ F' hr
            obtain ⟨m2, hcs, nc2⟩ := ih F' F₁ h
            refine ⟨fun x hx => m2 x (m1 x hx), ?_, newClosed_trans H nc1 nc2 m2⟩
            intro c' hc'
            rcases List.mem_cons.mp hc' with he | hm
            · rw [he]; exact m2 c hcF'
            · exact hcs c' hm

theorem deepFreezeF_spec :
    ∀ (fuel : Nat) (H : JsHeap) (r : Nat) (F F' : List Nat),
      deepFreezeF fuel H r F = some F' →
      (∀ x ∈ F, x ∈ F') ∧ r ∈ F' ∧ (∀ c ∈ childrenOf H r, c ∈ F') ∧
        NewClosed H F F' := by
  intro fuel
  induction fuel with
  | zero =>
      intro H r F F' h
      simp [deepFreezeF] at h
  | succ fuel ih =>
      intro H r F F' h
      have hrec : ∀ c G G', deepFreezeF fuel H c G = some G' →
          (∀ x ∈ G, x ∈ G') ∧ c ∈ G' ∧ NewClosed H G G' := by
        intro c G G' hcall
        obtain ⟨m, hcin, hk, nc⟩ := ih H c G G' hcall
        exact ⟨m, hcin, nc⟩
      simp only [deepFreezeF] at h
      obtain ⟨mono, hkids, nc⟩ :=
        freezeKids_spec H (deepFreezeF fuel H) hrec (childrenOf H r)
          (freezeOne r F) F' h
      have hrF' : r ∈ F' := mono r (mem_freezeOne_self r F)
      refine ⟨fun x hx => mono x (mem_freezeOne_of r hx), hrF', hkids, ?_⟩
      intro x hx
      rcases nc x hx with hfo | hcl
      · rcases mem_freezeOne_elim hfo with he | hF
        · subst he; exact Or.inr hkids
        · exact Or.inl hF
      · exact Or.inr hcl

theorem hfrozen_extend (H : JsHeap) {F F' : List Nat}
    (hF : HFrozen H F) (mono : ∀ x ∈ F, x ∈ F') (nc : NewClosed H F F') :
    HFrozen H F' := by
  intro x hx c hc
  rcases nc x hx with hin | hcl
  · exact mono c (hF x hin c hc)
  · exact hcl c hc

theorem reach_mem_of_hfrozen (H : JsHeap) {F : List Nat} {r x : Nat}
    (hH : HFrozen H F) (hr : r ∈ F) (hx : Reach H r x) : x ∈ F := by
  induction hx with
  | refl => exact hr
  | step ha hc ih => exact hH _ ih _ hc

theorem assignProp_frozen (H : JsHeap) {F : List Nat} {x : Nat}
    (hx : x ∈ F) (k : String) (v : JsVal) : assignProp H F x k v = .error () := by
  unfold assignProp
  rw [if_pos hx]

/-- C7, amended.  What the engine's freezing discipline actually
guarantees: `executeAction` deep-freezes the previous state and
`renderComponent` deep-freezes the incoming props, so — provided the
already-frozen set is hereditarily closed, which is the precondition
under which `deepFreeze`'s "stop at already-frozen values" is sound —
every object reachable from the handler context's `state` or `props`
reference is frozen after the two `deepFreeze` passes, and strict-mode
assignment to any of its properties throws.  The claim's stronger
reading — *every* state object reachable from the context, including the
root-state object behind `ctx.rootState` — is refuted by
`c7_rootstate_assignment_not_trapped`: no `deepFreeze` is ever applied
to `rootState`, so assigning to it succeeds. -/
theorem c7_state_props_deep_frozen (H : JsHeap) (fuel : Nat)
    (F F₁ F₂ : List Nat) (c : CtxRefs)
    (hF : HFrozen H F)
    (h1 : deepFreezeF fuel H c.state F = some F₁)
    (h2 : deepFreezeF fuel H c.props F₁ = some F₂) :
    ∀ x, Reach H c.state x ∨ Reach H c.props x →
      x ∈ F₂ ∧ ∀ k v, assignProp H F₂ x k v = .error () := by
  obtain ⟨m1, hs1, hk1, nc1⟩ := deepFreezeF_spec fuel H c.state F F₁ h1
  have hH1 : HFrozen H F₁ := hfrozen_extend H hF m1 nc1
  obtain ⟨m2, hs2, hk2, nc2⟩ := deepFreezeF_spec fuel H c.props F₁ F₂ h2
  have hH2 : HFrozen H F₂ := hfrozen_extend H hH1 m2 nc2
  intro x hx
  have hxF : x ∈ F₂ := by
    rcases hx with hr | hr
    · exact reach_mem_of_hfrozen H hH2 (m2 _ hs1) hr
    · exact reach_mem_of_hfrozen H hH2 hs2 hr
  exact ⟨hxF, fun k v => assignProp_frozen H hxF k v⟩

/-- Witness for C7 on the three-object heap: starting from nothing
frozen, deep-freezing the state object (0) and then the props object (1)
freezes the state object, and assignment to it throws. -/
theorem c7_deep_frozen_witness :
    0 ∈ [1, 0] ∧ ∀ k v, assignProp c7H [1, 0] 0 k v = .error () :=
  c7_state_props_deep_frozen c7H 3 [] [0] [1, 0] ⟨0, 1, 2⟩
    (fun x hx => absurd hx (List.not_mem_nil x)) rfl rfl 0 (Or.inl Reach.refl)

/-- Counterexample to C7 as written: after the engine's two `deepFreeze`
passes (previous state, then props), the root-state object (2) — a state
object reachable from the handler's context through `ctx.rootState` — is
not frozen, and strict-mode assignment to its property succeeds instead
of throwing. -/
theorem c7_rootstate_assignment_not_trapped :
    deepFreezeF 3 c7H 0 [] = some [0] ∧
    deepFreezeF 3 c7H 1 [0] = some [1, 0] ∧
    ctxReachable c7H ⟨0, 1, 2⟩ 2 ∧
    assignProp c7H [1, 0] 2 "b" .prim = .ok c7H :=
  ⟨rfl, rfl, Or.inr (Or.inr Reach.refl), rfl⟩

/-! ## C8: teardown purge -/

theorem destroyHook_purges (s : Engine) (i : String) (h : TearPre s i) :
    Purged (destroyHook s i) i := by
  obtain ⟨⟨inst, hinst, hflag⟩, hrr⟩ := h
  unfold destroyHook
  rw [hinst]
  dsimp only
  rw [if_pos ⟨by simp [hflag], hrr⟩]
  refine ⟨?_, ?_, ?_⟩
  · show (s.delInst i).getInst i = none
    rw [getInst_delInst]
    simp
  · intro e he
    have := (List.mem_filter.mp he).2
    simpa using this
  · intro e he
    have := (List.mem_filter.mp he).2
    simpa using this

theorem destroyHook_getInst_ne (s : Engine) (r i : String) (hne : r ≠ i) :
    (destroyHook s r).getInst i = s.getInst i := by
  unfold destroyHook
  cases hg : s.getInst r with
  | none => rfl
  | some inst =>
      dsimp only
      split
      · show (s.delInst r).getInst i = s.getInst i
        rw [getInst_delInst, if_neg hne]
      · rfl

theorem destroyHook_tearPre_pres (s : Engine) (r i : String) (hne : r ≠ i)
    (h : TearPre s i) : TearPre (destroyHook s r) i := by
  obtain ⟨⟨inst, hinst, hflag⟩, hrr⟩ := h
  refine ⟨⟨inst, ?_, hflag⟩, ?_⟩
  · rw [destroyHook_getInst_ne s r i hne]; exact hinst
  · rw [(destroyHook_fields s r).2.2.2.2.2.1]; exact hrr

theorem destroyHook_purged_pres (s : Engine) (r i : String) (h : Purged s i) :
    Purged (destroyHook s r) i := by
  obtain ⟨hg, ha, ht⟩ := h
  unfold destroyHook
  cases hgr : s.getInst r with
  | none => exact ⟨hg, ha, ht⟩
  | some inst =>
      dsimp only
      split
      · refine ⟨?_, ?_, ?_⟩
        · show (s.delInst r).getInst i = none
          rw [getInst_delInst]
          by_cases hri : r = i
          · simp [hri]
          · simp [hri, hg]
        · intro e he
          exact ha e (List.mem_filter.mp he).1
        · intro e he
          exact ht e (List.mem_filter.mp he).1
      · exact ⟨hg, ha, ht⟩

theorem foldl_destroy_purged (l : List String) :
    ∀ (s : Engine) (i : String),
      ((TearPre s i ∧ i ∈ l) ∨ Purged s i) →
      Purged (l.foldl destroyHook s) i := by
  induction l with
  | nil =>
      intro s i h
      rcases h with ⟨_, hm⟩ | hp
      · exact absurd hm (List.not_mem_nil i)
      · exact hp
  | cons r l ih =>
      intro s i h
      show Purged (l.foldl destroyHook (destroyHook s r)) i
      rcases h with ⟨hpre, hm⟩ | hp
      · by_cases hri : r = i
        · subst hri
          exact ih _ r (Or.inr (destroyHook_purges s r hpre))
        · have hmem : i ∈ l := by
            rcases List.mem_cons.mp hm with he | hl
            · exact absurd he.symm hri
            · exact hl
          exact ih _ i (Or.inl ⟨destroyHook_tearPre_pres s r i hri hpre, hmem⟩)
      · exact ih _ i (Or.inr (destroyHook_purged_pres s r i hp))

theorem doPatch_purges (s : Engine) (prev next : VNodeT) (i : String)
    (hin : i ∈ collectIds prev)
    (hout : (collectIds next).contains i = false)
    (hpre : TearPre s i) :
    Purged (doPatch s prev next) i := by
  unfold doPatch
  refine foldl_destroy_purged _ s i (Or.inl ⟨hpre, ?_⟩)
  refine List.mem_filter.mpr ⟨hin, ?_⟩
  have : i ∉ collectIds next := by simpa using hout
  simp [this]

/-- C8.  Teardown purge: (i) in general, any id present in the previous
tree, absent from the next tree and not part of the completed render
pass is fully purged by the patch — deleted from the registry, with
every cached thunk whose key begins with `id + ":"` dropped from both
caches; (ii) in general, once the cache has no entry for a key, a new
thunk allocation returns a reference distinct from every reference a
pre-teardown cache (with a not-larger allocator) ever held; (iii) on the
conditional-child program with seeded caches, the pass that drops the
child purges it (registry and both caches), and after the child
reappears its state comes fresh from the initializer (`0`, although the
pre-teardown child had advanced to `1`) and a re-created `child:Inc`
thunk takes the new reference `3`, not a pre-teardown one. -/
theorem c8_teardown_purges_and_fresh_rebuild :
    (∀ (s : Engine) (prev next : VNodeT) (i : String),
       i ∈ collectIds prev →
       (collectIds next).contains i = false →
       TearPre s i →
       Purged (doPatch s prev next) i) ∧
    (∀ (s s₀ : Engine) (id name : String) (p : Option Json),
       alookup s.actionCache (createCacheKey id name p) = none →
       s₀.nextThunkRef ≤ s.nextThunkRef →
       (∀ e ∈ s₀.actionCache, e.2 < s₀.nextThunkRef) →
       ∀ e ∈ s₀.actionCache, (createActionThunkM s id name p).2 ≠ e.2) ∧
    Purged wS2after "child" ∧
    (((runOr ((mkFns wP2 20).invokeAction "child" "Inc" none .internalKey wS2)).getInst
        "child").bind Instance.state = some 1) ∧
    ((wS2re.getInst "child").bind Instance.state = some 0) ∧
    ((createActionThunkM wS2re "child" "Inc" none).2 = 3) := by
  refine ⟨doPatch_purges, ?_, ⟨rfl, by decide, by decide⟩, rfl, rfl, rfl⟩
  intro s s₀ id name p hmiss hgrow hwf e he
  have hval : (createActionThunkM s id name p).2 = s.nextThunkRef := by
    simp [createActionThunkM, hmiss]
  rw [hval]
  have := hwf e he
  omega

/-- Witness for C8's general purge conjunct: tearing the child out of
the two-node tree purges it from an engine whose caches hold a stale
`child:Inc` thunk. -/
theorem c8_teardown_witness :
    Purged
      (doPatch
        { wS2c with renderRootId := none }
        (VNodeT.node "app" [VNodeT.node "child" []])
        (VNodeT.node "app" []))
      "child" :=
  c8_teardown_purges_and_fresh_rebuild.1
    { wS2c with renderRootId := none }
    (VNodeT.node "app" [VNodeT.node "child" []])
    (VNodeT.node "app" [])
    "child"
    (by decide)
    (by decide)
    ⟨⟨{ id := "child", compRef := 1, state := some 1, props := none,
        prevProps := none, vnode := some (VNodeT.node "child" []),
        isRoot := false, inCurrentRender := false },
      by rfl, rfl⟩, by decide⟩

/-! ## C9: skip-render on unchanged state reference -/

theorem c9_quiet_none_run (P : Program) (f : Nat) (cid : String) (sE : Engine)
    (instE : Instance)
    (h0 : sE.noRender = 0) (hrc : sE.rootStateChanged = false)
    (hsc : sE.stateChanged = false)
    (hinst : sE.getInst cid = some instE) :
    ∃ s', (mkFns P (f + 2)).runNext cid none sE = .ok s' ∧
      s'.patchCount = sE.patchCount ∧ s'.viewLog = sE.viewLog := by
  rw [mkFns_runNext]
  unfold runNextF
  dsimp only
  rw [mkFns_renderCI]
  unfold renderCIF
  rw [hinst]
  dsimp only
  rw [if_pos h0, hrc]
  rw [if_neg (by simp)]
  rw [hsc]
  rw [if_neg (by simp)]
  dsimp only [bind, Except.bind]
  exact ⟨_, rfl, rfl, rfl⟩

/-- C9.  Skip-render: dispatching an action whose handler returns the
very state reference it received (and no continuation) on a quiescent
engine leaves the patch count and the view log unchanged — zero patches
and zero view invocations result from that dispatch. -/
theorem c9_same_state_ref_skips_render (P : Program) (fuel : Nat)
    (cid name : String) (data : Option Json) (s : Engine) (inst : Instance)
    (cfg : CompDef) (hnd : String → Option Json → Ctx → HandlerOut)
    (h0 : s.noRender = 0) (hrc : s.rootStateChanged = false)
    (hsc : s.stateChanged = false)
    (hinst : s.getInst cid = some inst)
    (hcfg : P.defs.get? inst.compRef = some cfg)
    (hact : alookup cfg.actions name = some hnd)
    (hh : hnd cid data { props := inst.props, state := inst.state,
                         rootState := s.rootState, event := false }
            = { state := inst.state, next := none }) :
    ∃ s', (mkFns P (fuel + 4)).invokeAction cid name data .internalKey s = .ok s' ∧
      s'.patchCount = s.patchCount ∧ s'.viewLog = s.viewLog := by
  rw [mkFns_invokeAction]
  unfold invokeActionF
  dsimp only
  rw [hinst]
  dsimp only
  rw [mkFns_executeAction]
  unfold executeActionF
  rw [hinst]
  dsimp only
  rw [hcfg]
  dsimp only
  rw [hact]
  dsimp only
  rw [hh]
  dsimp only
  by_cases hroot : inst.isRoot = true
  · rw [if_pos hroot]
    refine c9_quiet_none_run P fuel cid _ inst ?_ ?_ ?_ ?_
    · exact h0
    · simp
    · simp only [bne_self_eq_false, Bool.or_false]
      exact hsc
    · show alookup (updAssoc _ s.registry cid) cid = some _
      rw [alookup_updAssoc, if_pos rfl,
          show alookup s.registry cid = some inst from hinst]
      rfl
  · rw [if_neg hroot]
    refine c9_quiet_none_run P fuel cid _ inst ?_ ?_ ?_ ?_
    · exact h0
    · exact hrc
    · simp only [bne_self_eq_false, Bool.or_false]
      exact hsc
    · show alookup (updAssoc _ s.registry cid) cid = some _
      rw [alookup_updAssoc, if_pos rfl,
          show alookup s.registry cid = some inst from hinst]
      rfl

/-- Witness for C9 at concrete inputs: the root's `NoOpR` action of the
mounted two-component program returns its state reference unchanged, and
the dispatch leaves the patch count and the view log untouched. -/
theorem c9_skip_render_witness :
    ∃ s', (mkFns wP (16 + 4)).invokeAction "app" "NoOpR" none .internalKey wS
        = .ok s' ∧
      s'.patchCount = wS.patchCount ∧ s'.viewLog = wS.viewLog :=
  c9_same_state_ref_skips_render wP 16 "app" "NoOpR" none wS wAppInst rootC
    noOpHandler rfl rfl rfl rfl rfl rfl rfl

/-! ## C10: invoking a thunk for a torn-down component -/

/-- C10.  Invoking a memoized action or task thunk with a host DOM event
or the engine's private `internalKey` while no instance with the thunk's
component id is registered throws a synchronous error (`Component ...
not found in registry`) rather than silently no-opping — in all four
argument/kind combinations. -/
theorem c10_missing_instance_throws (P : Program) (fuel : Nat)
    (cid name : String) (data : Option Json) (s : Engine)
    (h : s.getInst cid = none) :
    (mkFns P (fuel + 1)).invokeAction cid name data .domEvent s
      = .error (.componentNotFound cid) ∧
    (mkFns P (fuel + 1)).invokeAction cid name data .internalKey s
      = .error (.componentNotFound cid) ∧
    (mkFns P (fuel + 1)).invokeTask cid name data .domEvent s
      = .error (.componentNotFound cid) ∧
    (mkFns P (fuel + 1)).invokeTask cid name data .internalKey s
      = .error (.componentNotFound cid) := by
  refine ⟨?_, ?_, ?_, ?_⟩
  · rw [mkFns_invokeAction]; unfold invokeActionF; dsimp only; rw [h]
  · rw [mkFns_invokeAction]; unfold invokeActionF; dsimp only; rw [h]
  · rw [mkFns_invokeTask]; unfold invokeTaskF; dsimp only; rw [h]
  · rw [mkFns_invokeTask]; unfold invokeTaskF; dsimp only; rw [h]

/-- Witness for C10: the mounted two-component program has no instance
`"ghost"`, and invoking an action thunk for it with the internal key
throws the component-not-found error. -/
theorem c10_missing_instance_witness :
    (mkFns wP (19 + 1)).invokeAction "ghost" "Inc" none .internalKey wS
      = .error (.componentNotFound "ghost") :=
  (c10_missing_instance_throws wP 19 "ghost" "Inc" none wS rfl).2.1

end Jetix
